import Mathlib

/-
  Verification of the clustering / propagation agent of dev-coop-sys.

  The development shallowly embeds the parts of
  src/clustering/model/cluster-control-client.cc and
  src/clustering/model/kde.h that the verified properties are about.
  C++ doubles are idealized as real numbers; std::map objects are
  association lists with unique keys (iteration order of the map is
  irrelevant to every stated theorem); simulator times are real numbers.
-/

open scoped Classical

namespace DevCoop

/-- Three dimensional vector of reals, modelling the ns3 Vector of doubles. -/
structure Vec3 where
  x : ℝ
  y : ℝ
  z : ℝ

/-- Euclidean distance of two vectors, as the ns3 CalculateDistance helper
used at cluster-control-client.cc:1285. -/
noncomputable def calculateDistance (a b : Vec3) : ℝ :=
  Real.sqrt ((a.x - b.x) * (a.x - b.x) + (a.y - b.y) * (a.y - b.y) + (a.z - b.z) * (a.z - b.z))

/-- Node degree enumeration of ClusterSap, in the declaration order
STANDALONE, CH, CM witnessed by the DegreeName array of the source. -/
inductive NodeDegree where
  | standalone
  | ch
  | cm
deriving DecidableEq

/-- Numeric value of a degree enumerator (C++ enum with declaration order
STANDALONE = 0, CH = 1, CM = 2). -/
def NodeDegree.val : NodeDegree → ℕ
  | .standalone => 0
  | .ch => 1
  | .cm => 2

/-- Protocol states, in the order of the ClusterStatusName array of the
source, plus the ACTIVE state used by the reverse mode. -/
inductive NodeStatus where
  | clusterStart
  | clusterHeadElection
  | clusterFormation
  | clusterUpdate
  | exchangeDistroMap
  | decidePropagationParam
  | propagationReady
  | propagationRunning
  | propagationComplete
  | active
deriving DecidableEq

/-- ClusterSap NeighborInfo record. The two IPv4 addresses are abstracted
as naturals. -/
structure NeighborInfo where
  ts : ℝ
  imsi : ℕ
  clusterId : ℕ
  degree : NodeDegree
  isStartingNode : Bool
  position : Vec3
  address : ℕ
  chAddress : ℕ

/-- The value UINT64_MAX used as a sentinel by the source. -/
def UINT64_MAX : ℕ := 2 ^ 64 - 1

/-- Lookup in an association list, as std::map find. -/
def lookupKey {α : Type} : List (ℕ × α) → ℕ → Option α
  | [], _ => none
  | kv :: rest, k => if kv.1 = k then some kv.2 else lookupKey rest k

/-- Membership test in an association list, as std::map count or find. -/
def containsKey {α : Type} (l : List (ℕ × α)) (k : ℕ) : Bool :=
  l.any (fun kv => kv.1 == k)

/-- Insert or overwrite, as the insert-or-assign idiom used throughout the
source. The position of a fresh insertion is irrelevant to every theorem. -/
def upsertKey {α : Type} : List (ℕ × α) → ℕ → α → List (ℕ × α)
  | [], k, v => [(k, v)]
  | kv :: rest, k, v => if kv.1 = k then (k, v) :: rest else kv :: upsertKey rest k v

/-- Erase a key, as std::map erase. -/
def eraseKey {α : Type} (l : List (ℕ × α)) (k : ℕ) : List (ℕ × α) :=
  l.filter (fun kv => kv.1 != k)

/-- The compile-time constants of the Constants namespace of the source,
whose numeric values live in a header outside the provided sources; the
spec fixes OMNI_RANGE = 100 and PROPAGATION_THETA = pi / 3 in scenarios. -/
structure Consts where
  omniRange : ℝ
  propagationTheta : ℝ
  bfRange : ℝ
  distroMapSize : ℕ
  distroMapScale : ℝ
  reversePropagation : Bool

/-- The mutable per node state of ClusterControlClient that the verified
handlers read and write. -/
structure NodeState where
  status : NodeStatus
  mob : NeighborInfo
  neighborList : List (ℕ × NeighborInfo)
  clusterList : List (ℕ × NeighborInfo)
  neighborClusterList : List (ℕ × NeighborInfo)
  neighborDistroMap : List (ℕ × List ℝ)
  neighborClustersSocket : List ℕ
  ackDistroMap : List (ℕ × Bool)
  ackInterClusterPropagation : List (ℕ × Bool)
  firstPropagationStartingTime : ℝ
  firstPropagationStartNodeId : ℕ
  propagationStartTime : ℝ
  propagationDirection : Vec3
  basePropagationDirection : Vec3

/-- Payload of an InterClusterPropagationHeader; the field name keeps the
spelling of the source. -/
structure InterClusterPropagationInfo where
  startingTime : ℝ
  source : Vec3
  distination : Vec3
  direction : Vec3

/-- Payload of an IntraClusterPropagationHeader. -/
structure IntraClusterPropagationInfo where
  startingNode : ℕ
  startingTime : ℝ
  direction : Vec3

/-- Payload of an InterNodePropagationHeader. -/
structure InterNodePropagationInfo where
  startingTime : ℝ
  position : Vec3
  direction : Vec3

/-- Unicast messages on the inter cluster-head control port. The ack type
tag abstracts the TypeId: 0 for DistroMapHeader, 1 for
InterClusterPropagationHeader. -/
inductive InterChMsg where
  | distroMapMsg (dest : ℕ)
  | interClusterPropMsg (dest : ℕ) (startingTime : ℝ) (source distination direction : Vec3)
  | ackMsg (dest : ℕ) (ackedType : ℕ)

/-- ClusterControlClient::CalcPropagationDelay (cluster-control-client.cc:687).
The local names including the verocity spelling follow the source; the
returned Time in seconds is the absolute value of the horizontal component. -/
noncomputable def calcPropagationDelay (source destination direction : Vec3) : ℝ :=
  let a := direction.x
  let b := direction.y
  let verocity := a * a + b * b
  let deltaX := destination.x - source.x
  let deltaY := destination.y - source.y
  let deltaHorizontal := (a * deltaX + b * deltaY) / verocity
  |deltaHorizontal|

/-- ClusterControlClient::IsInSector (cluster-control-client.cc:703),
as a proposition with the exact branch structure of the source. -/
def isInSector (source destination direction : Vec3) (radius theta : ℝ) : Prop :=
  let a := direction.x
  let b := direction.y
  let absol := a * a + b * b
  let deltaX := destination.x - source.x
  let deltaY := destination.y - source.y
  let dx := (a * deltaX + b * deltaY) / absol
  let dy := (-b * deltaX + a * deltaY) / absol
  let ex := Real.cos (theta / 2)
  let ey := Real.sin (theta / 2)
  let sx := Real.cos (-theta / 2)
  let sy := Real.sin (-theta / 2)
  ¬ (deltaX * deltaX + deltaY * deltaY > radius * radius) ∧
    (if sx * ey - ex * sy > 0 then
      ¬ (sx * dy - dx * sy < 0) ∧ ¬ (ex * dy - dx * ey > 0)
    else
      sx * dy - dx * sy ≥ 0 ∨ ex * dy - dx * ey ≤ 0)

/-- ClusterControlClient::ScheduleInterNodePropagation
(cluster-control-client.cc:744). The second component is the delay of the
newly scheduled StartNodePropagation event, replacing any pending one;
none means no event was scheduled. -/
noncomputable def scheduleInterNodePropagation (reverse : Bool) (now : ℝ) (s : NodeState) :
    NodeState × Option ℝ :=
  let s1 := { s with status := NodeStatus.propagationReady }
  if now > s1.propagationStartTime then (s1, none)
  else if reverse then (s1, some 0.1)
  else (s1, some (s1.propagationStartTime - now))

/-- The InterNodePropagationHeader branch of ClusterControlClient::HandleRead
(cluster-control-client.cc:1259). -/
noncomputable def handleInterNodePropagation (C : Consts) (now : ℝ)
    (info : InterNodePropagationInfo) (s : NodeState) : NodeState × Option ℝ :=
  if isInSector info.position s.mob.position info.direction C.bfRange C.propagationTheta then
    let s1 :=
      if s.propagationDirection.x = 0 ∧ s.propagationDirection.y = 0 then
        let speed := Real.sqrt (info.direction.x * info.direction.x +
          info.direction.y * info.direction.y)
        let comeX := info.direction.x / speed
        let comeY := info.direction.y / speed
        let deltaX := s.mob.position.x - info.position.x
        let deltaY := s.mob.position.y - info.position.y
        let deltaAbs := Real.sqrt (deltaX * deltaX + deltaY * deltaY)
        let outX := comeX + deltaX / deltaAbs
        let outY := comeY + deltaY / deltaAbs
        let outAbs := Real.sqrt (outX * outX + outY * outY)
        { s with propagationDirection :=
            ⟨speed * outX / outAbs, speed * outY / outAbs, s.propagationDirection.z⟩ }
      else s
    let distance := calculateDistance info.position s1.mob.position
    let velocity := Real.sqrt (s1.propagationDirection.x * s1.propagationDirection.x +
      s1.propagationDirection.y * s1.propagationDirection.y)
    let delay := distance / velocity
    let newTime := info.startingTime + delay
    if newTime < s1.propagationStartTime ∧ now < s1.propagationStartTime then
      scheduleInterNodePropagation C.reversePropagation now
        { s1 with propagationStartTime := newTime }
    else (s1, none)
  else (s, none)

/-- The IntraClusterPropagationHeader branch of ClusterControlClient::HandleRead
(cluster-control-client.cc:1220). The disable argument is the static
DISABLE_STARTINGNODE flag. -/
noncomputable def handleIntraClusterPropagation (disable reverse : Bool) (now : ℝ)
    (clusterId : ℕ) (info : IntraClusterPropagationInfo) (s : NodeState) :
    NodeState × Option ℝ :=
  if s.mob.clusterId = clusterId ∧ s.mob.degree = NodeDegree.cm then
    let s1 := { s with propagationDirection := info.direction }
    if s1.mob.imsi = info.startingNode ∧ (disable = false ∨ s1.mob.isStartingNode = true) ∧
        (s1.status = NodeStatus.exchangeDistroMap ∨ s1.status = NodeStatus.propagationReady) then
      let s2 :=
        if s1.propagationStartTime ≥ info.startingTime ∧ info.startingTime > now then
          { s1 with propagationStartTime := info.startingTime,
                    firstPropagationStartingTime := info.startingTime }
        else s1
      scheduleInterNodePropagation reverse now s2
    else (s1, none)
  else (s, none)

/-- Squared distance as accumulated by ClusterControlClient::FindNodeByPosition
(cluster-control-client.cc:662); the source compares squared distances. -/
noncomputable def sqDist3 (pos p : Vec3) : ℝ :=
  (pos.x - p.x) * (pos.x - p.x) + (pos.y - p.y) * (pos.y - p.y) + (pos.z - p.z) * (pos.z - p.z)

/-- The id and squared distance accumulator of FindNodeByPosition: the fold
starts from the node itself and replaces the candidate on a strictly
smaller squared distance. -/
noncomputable def findNodeByPositionAux (s : NodeState) (pos : Vec3) : ℕ × ℝ :=
  s.clusterList.foldl
    (fun acc kv =>
      let dist := sqDist3 pos kv.2.position
      if acc.2 > dist then (kv.1, dist) else acc)
    (s.mob.imsi, sqDist3 pos s.mob.position)

/-- ClusterControlClient::FindNodeByPosition (cluster-control-client.cc:662). -/
noncomputable def findNodeByPosition (s : NodeState) (pos : Vec3) : ℕ :=
  (findNodeByPositionAux s pos).1

/-- World frame x coordinate of a density map cell, as computed in the cell
loop of TransmitPropagationDirection (cluster-control-client.cc:590). -/
noncomputable def cellPosX (C : Consts) (basePosition : Vec3) (index : ℕ) : ℝ :=
  (((index % C.distroMapSize : ℕ) : ℝ) - ((C.distroMapSize / 2 : ℕ) : ℝ)) *
    C.distroMapScale + basePosition.x

/-- World frame y coordinate of a density map cell, mirroring the integer
expression (index - index % SIZE) / SIZE of the source. -/
noncomputable def cellPosY (C : Consts) (basePosition : Vec3) (index : ℕ) : ℝ :=
  ((((index - index % C.distroMapSize) / C.distroMapSize : ℕ) : ℝ) -
    ((C.distroMapSize / 2 : ℕ) : ℝ)) * C.distroMapScale + basePosition.y

/-- The candidate cell loop of TransmitPropagationDirection
(cluster-control-client.cc:585): walks the density vector with its index,
keeps cells with value above 1.0 that pass the sector test with radius 100,
and retains the strictly nearest one.  The accumulator none stands for
candidate_found = false with candidate_distance at the DBL_MAX sentinel,
against which the first qualifying cell always wins. -/
noncomputable def solveCells (C : Consts) (startingPosition incomeAve : Vec3)
    (incomeVelocity : ℝ) (basePosition : Vec3) :
    ℕ → List ℝ → Option (ℝ × Vec3 × Vec3) → Option (ℝ × Vec3 × Vec3)
  | _, [], acc => acc
  | index, value :: rest, acc =>
    let acc' :=
      if value > 1.0 then
        let x := cellPosX C basePosition index
        let y := cellPosY C basePosition index
        let dx := x - startingPosition.x
        let dy := y - startingPosition.y
        if isInSector startingPosition ⟨x, y, 0⟩ incomeAve 100.0 C.propagationTheta then
          let distance := Real.sqrt (dx * dx + dy * dy)
          match acc with
          | none => some (distance, ⟨x, y, 0⟩,
              ⟨incomeVelocity * dx / distance, incomeVelocity * dy / distance, 0⟩)
          | some (candidateDistance, p, o) =>
            if candidateDistance > distance then
              some (distance, ⟨x, y, 0⟩,
                ⟨incomeVelocity * dx / distance, incomeVelocity * dy / distance, 0⟩)
            else some (candidateDistance, p, o)
        else acc
      else acc
    solveCells C startingPosition incomeAve incomeVelocity basePosition (index + 1) rest acc'

/-- One iteration of the neighbor cluster loop of
TransmitPropagationDirection: when a candidate cell is found an
InterClusterPropagation frame for that peer is queued with ack entry
reset, and the outgoing vector is accumulated. -/
noncomputable def transmitStep (C : Consts) (startingPosition incomeAve : Vec3)
    (incomeVelocity : ℝ) (acc : NodeState × List InterChMsg × Vec3 × ℕ)
    (kd : ℕ × List ℝ) : NodeState × List InterChMsg × Vec3 × ℕ :=
  let st := acc.1
  let msgs := acc.2.1
  let outcomeSum := acc.2.2.1
  let outcomeNum := acc.2.2.2
  let key := kd.1
  let basePosition :=
    match lookupKey st.neighborClusterList key with
    | some n => n.position
    | none => (⟨0, 0, 0⟩ : Vec3)
  match solveCells C startingPosition incomeAve incomeVelocity basePosition 0 kd.2 none with
  | some (_, candidatePos, candidateOutcome) =>
    let st' :=
      { st with ackInterClusterPropagation := upsertKey st.ackInterClusterPropagation key false }
    (st', msgs ++ [InterChMsg.interClusterPropMsg key st.firstPropagationStartingTime
        startingPosition candidatePos candidateOutcome],
      ⟨outcomeSum.x + candidateOutcome.x, outcomeSum.y + candidateOutcome.y,
        outcomeSum.z + candidateOutcome.z⟩,
      outcomeNum + 1)
  | none => (st, msgs, outcomeSum, outcomeNum)

/-- ClusterControlClient::TransmitPropagationDirection
(cluster-control-client.cc:531).  Returns the new state, the queued
InterClusterPropagation frames, and whether the intra cluster transmission
was scheduled (ScheduleTransmit on a non empty ClusterList).  The disable
argument is the static DISABLE_STARTINGNODE flag. -/
noncomputable def transmitPropagationDirection (C : Consts) (disable : Bool) (now : ℝ)
    (id : ℕ) (propVector : Vec3) (s : NodeState) : NodeState × List InterChMsg × Bool :=
  let incomeAve := propVector
  let incomeVelocity := Real.sqrt (incomeAve.x * incomeAve.x + incomeAve.y * incomeAve.y)
  let startingPositionOpt : Option Vec3 :=
    match lookupKey s.clusterList id with
    | some n => some n.position
    | none => if id = s.mob.imsi then some s.mob.position else none
  match startingPositionOpt with
  | none => (s, [], false)
  | some startingPosition =>
    let folded := s.neighborDistroMap.foldl
      (transmitStep C startingPosition incomeAve incomeVelocity) (s, [], ⟨0, 0, 0⟩, 0)
    let st1 := folded.1
    let msgs := folded.2.1
    let outcomeSum := folded.2.2.1
    let abs0 := Real.sqrt (outcomeSum.x * outcomeSum.x + outcomeSum.y * outcomeSum.y)
    let st2 := { st1 with propagationDirection :=
        ⟨incomeVelocity * outcomeSum.x / abs0, incomeVelocity * outcomeSum.y / abs0, 0⟩ }
    let intraScheduled := !st2.clusterList.isEmpty
    if id = s.mob.imsi ∧ (disable = false ∨ s.mob.isStartingNode = true) then
      let st3 := { st2 with propagationStartTime := st2.firstPropagationStartingTime }
      ((scheduleInterNodePropagation C.reversePropagation now st3).1, msgs, intraScheduled)
    else (st2, msgs, intraScheduled)

/-- The InterClusterPropagationHeader branch of
ClusterControlClient::HandlePacketInterCluster (cluster-control-client.cc:1380).
Locates the cluster node nearest the announced destination, adds 1.3 times
the directional delay to the announced starting time, and adopts that time
when it strictly improves the recorded one, re-running the direction
solver from the candidate node; an Ack is returned in every case. -/
noncomputable def handlePacketInterClusterProp (C : Consts) (disable : Bool) (now : ℝ)
    (senderClusterId : ℕ) (info : InterClusterPropagationInfo) (s : NodeState) :
    NodeState × List InterChMsg × Bool :=
  let candidateId := findNodeByPosition s info.distination
  let candidatePos :=
    if candidateId = s.mob.imsi then s.mob.position
    else
      match lookupKey s.clusterList candidateId with
      | some n => n.position
      | none => (⟨0, 0, 0⟩ : Vec3)
  let delay := calcPropagationDelay info.source candidatePos info.direction
  let newTime := info.startingTime + delay * 1.3
  let res :=
    if s.firstPropagationStartingTime > newTime then
      transmitPropagationDirection C disable now candidateId info.direction
        { s with firstPropagationStartingTime := newTime,
                 firstPropagationStartNodeId := candidateId }
    else (s, [], false)
  (res.1, res.2.1 ++ [InterChMsg.ackMsg senderClusterId 1], res.2.2)

/-- The DistroMapHeader branch of HandlePacketInterCluster
(cluster-control-client.cc:1340): stores the peer info and its density map
and replies with exactly one Ack. -/
def handleDistroMapFrame (id : ℕ) (otherInfo : NeighborInfo) (otherDistroMap : List ℝ)
    (s : NodeState) : NodeState × List InterChMsg :=
  let s1 := { s with neighborClusterList := upsertKey s.neighborClusterList id otherInfo }
  let s2 := { s1 with neighborDistroMap := upsertKey s1.neighborDistroMap id otherDistroMap }
  (s2, [InterChMsg.ackMsg id 0])

/-- The AckHeader branch of HandlePacketInterCluster
(cluster-control-client.cc:1428). -/
def handleAckFrame (clusterId : ℕ) (ackType : ℕ) (s : NodeState) : NodeState :=
  let flip := fun (l : List (ℕ × Bool)) =>
    l.map (fun kv => if kv.1 = clusterId then (kv.1, true) else kv)
  let s1 :=
    if ackType = 0 then { s with ackDistroMap := flip s.ackDistroMap } else s
  if ackType = 1 then
    { s1 with ackInterClusterPropagation := flip s1.ackInterClusterPropagation }
  else s1

/-- ClusterControlClient::ExchangeDistroMap (cluster-control-client.cc:432).
For each peer socket the ack entry is reset to false and a DistroMapHeader
packet is built, but the Simulator::Schedule call that would hand the
packet to SendTo is commented out in the source, so the function emits no
message. -/
def exchangeDistroMap (s : NodeState) : NodeState × List InterChMsg :=
  let s1 := { s with status := NodeStatus.exchangeDistroMap }
  s1.neighborClustersSocket.foldl
    (fun acc id =>
      ({ acc.1 with ackDistroMap := upsertKey acc.1.ackDistroMap id false }, acc.2))
    (s1, [])

/-- The retry cancellation performed on entry to DecidePropagationParam
(cluster-control-client.cc:470): every outstanding false entry of the
DistroMap ack table is flipped to true. -/
def decidePropagationAcks (acks : List (ℕ × Bool)) : List (ℕ × Bool) :=
  acks.map (fun kv => if kv.2 = false then (kv.1, true) else kv)

/-- Entry into DECIDE_PROPAGATION_PARAM restricted to the status change and
the ack loop of DecidePropagationParam (cluster-control-client.cc:466). -/
def decidePropagationParamAckPhase (s : NodeState) : NodeState :=
  { s with status := NodeStatus.decidePropagationParam,
           ackDistroMap := decidePropagationAcks s.ackDistroMap }

/-- ClusterControlClient::SendTo (cluster-control-client.cc:808) as one
step: given whether a socket for the peer exists and the current ack cell
(none models the null pointer), returns whether the packet is transmitted
now and the delay of the scheduled retry if any. -/
def sendToStep (minimumTdmaSlot : ℝ) (socketPresent : Bool) (ack : Option Bool) :
    Bool × Option ℝ :=
  if ack = none ∨ ack = some false then
    if socketPresent then
      (true, if ack ≠ none ∧ ack = some false then some (minimumTdmaSlot * 1000) else none)
    else (false, none)
  else (false, none)

/-- A two by two matrix stored row major, as the std::array of four values
used for the bandwidth of kdepp::Kde2d (kde.h). -/
structure Mat2 where
  h0 : ℝ
  h1 : ℝ
  h2 : ℝ
  h3 : ℝ

/-- Determinant h0 * h3 - h1 * h2 as computed in kde.h invert and
pre_calculate_terms. -/
noncomputable def det2 (m : Mat2) : ℝ := m.h0 * m.h3 - m.h1 * m.h2

/-- kdepp::Kde2d::invert (kde.h:256): adjugate over the determinant,
throwing on a zero determinant. -/
noncomputable def invert2 (m : Mat2) : Except String Mat2 :=
  if det2 m = 0 then Except.error "Singular data matrix"
  else Except.ok ⟨m.h3 / det2 m, -1 * m.h1 / det2 m, -1 * m.h2 / det2 m, m.h0 / det2 m⟩

/-- A constructed kdepp::Kde2d object with its precomputed terms. -/
structure Kde2d where
  data : List (ℝ × ℝ)
  h : Mat2
  hInv : Mat2
  powPiTerm : ℝ
  hPowTerm : ℝ

/-- The explicit bandwidth constructor of kdepp::Kde2d (kde.h:184) together
with set_bandwidth and pre_calculate_terms.  Fewer than two samples and a
singular bandwidth throw; std::pow(det, -1/2) is NaN exactly when the
determinant is negative (zero being already rejected), so the isnan guard
of pre_calculate_terms is modelled as a negativity test. -/
noncomputable def mkKde2d (data : List (ℝ × ℝ)) (bandwidth : Mat2) : Except String Kde2d :=
  if data.length < 2 then Except.error "Only one data point"
  else
    match invert2 bandwidth with
    | Except.error e => Except.error e
    | Except.ok inv =>
      if det2 bandwidth < 0 then Except.error "Math domain error"
      else Except.ok
        { data := data, h := bandwidth, hInv := inv
          powPiTerm := (2 * Real.pi) ^ (-(2 : ℝ) / 2)
          hPowTerm := det2 bandwidth ^ (-(1 : ℝ) / 2) }

/-- kdepp::Kde2d::kernel (kde.h:224): the quadratic form is expanded by
hand exactly as in the source. -/
noncomputable def Kde2d.kernel (k : Kde2d) (diff : ℝ × ℝ) : ℝ :=
  let vecMath1a := diff.1 * k.hInv.h0 + diff.2 * k.hInv.h2
  let vecMath1b := diff.1 * k.hInv.h1 + diff.2 * k.hInv.h3
  let vecMath2 := vecMath1a * diff.1 + vecMath1b * diff.2
  k.powPiTerm * k.hPowTerm * Real.exp (-1 / 2 * vecMath2)

/-- kdepp::Kde2d::eval (kde.h:197): the raw kernel sum; the division by the
sample count is commented out in the source. -/
noncomputable def Kde2d.eval (k : Kde2d) (point : ℝ × ℝ) : ℝ :=
  k.data.foldl (fun sum i => sum + k.kernel (point.1 - i.1, point.2 - i.2)) 0

/-- NodeInfo mutation becoming CM of a cluster, as the repeated triple
assignment of degree, clusterId and chAddress in HandleRead. -/
def NeighborInfo.asCM (m : NeighborInfo) (cid addr : ℕ) : NeighborInfo :=
  { m with degree := NodeDegree.cm, clusterId := cid, chAddress := addr }

/-- NodeInfo mutation becoming CM without touching the CH address, as in
the merge branches of HandleRead. -/
def NeighborInfo.asCMkeepAddr (m : NeighborInfo) (cid : ℕ) : NeighborInfo :=
  { m with degree := NodeDegree.cm, clusterId := cid }

/-- NodeInfo mutation becoming CH of the own cluster. -/
def NeighborInfo.asCH (m : NeighborInfo) : NeighborInfo :=
  { m with degree := NodeDegree.ch, clusterId := m.imsi }

/-- ClusterControlClient::MergeCheck (cluster-control-client.cc:1495):
highest key among neighbors of degree CH; none models the UINT64_MAX
sentinel returned when no CH neighbor exists. -/
def mergeCheck (neighborList : List (ℕ × NeighborInfo)) : Option ℕ :=
  neighborList.foldl
    (fun acc kv =>
      if kv.2.degree = NodeDegree.ch then
        match acc with
        | none => some kv.1
        | some id => if kv.1 > id then some kv.1 else some id
      else acc)
    none

/-- The NeighborClusterList refresh shared by the ClusterInfoHeader and
InitiateClusterHeader branches of HandleRead (cluster-control-client.cc:1009
and 1072): a beacon from a foreign cluster inserts or refreshes a summary
entry for that cluster head, timestamped now. -/
def nclUpdate (now : ℝ) (info : NeighborInfo) (s : NodeState) : NodeState :=
  if s.mob.clusterId ≠ info.clusterId ∧
      (info.degree = NodeDegree.ch ∨ info.degree = NodeDegree.cm) then
    let neighborCluster : NeighborInfo :=
      { imsi := info.clusterId, clusterId := info.clusterId, position := info.position,
        address := info.chAddress, chAddress := info.chAddress, degree := NodeDegree.ch,
        ts := now, isStartingNode := false }
    { s with neighborClusterList :=
        upsertKey s.neighborClusterList neighborCluster.imsi neighborCluster }
  else s

/-- The ClusterInfoHeader branch of HandleRead (cluster-control-client.cc:906).
A beacon at or beyond OMNI_RANGE is dropped before any table access; an in
range beacon refreshes NeighborList and drives the formation and merge
logic of the source. -/
noncomputable def handleClusterInfo (C : Consts) (now : ℝ) (otherInfo : NeighborInfo)
    (s : NodeState) : NodeState :=
  let range := calculateDistance s.mob.position otherInfo.position
  if range ≥ C.omniRange then s
  else
    let s1 := { s with neighborList := upsertKey s.neighborList otherInfo.imsi otherInfo }
    let s2 :=
      if s1.status = NodeStatus.clusterStart ∧ otherInfo.degree = NodeDegree.ch ∧
          s1.mob.degree = NodeDegree.standalone then
        { s1 with status := NodeStatus.clusterUpdate,
                  mob := s1.mob.asCM otherInfo.clusterId otherInfo.address }
      else s1
    let s3 :=
      if s2.status = NodeStatus.clusterUpdate ∨ s2.status = NodeStatus.clusterHeadElection then
        if s2.mob.degree = NodeDegree.ch ∨ s2.mob.degree = NodeDegree.cm then
          if otherInfo.clusterId = s2.mob.imsi then
            { s2 with clusterList := upsertKey s2.clusterList otherInfo.imsi otherInfo }
          else if s2.clusterList.length = 0 then
            match mergeCheck s2.neighborList with
            | some potentialCH =>
              match lookupKey s2.neighborList potentialCH with
              | some potential =>
                if s2.mob.imsi < potential.imsi then
                  { s2 with mob := s2.mob.asCMkeepAddr potential.imsi }
                else s2
              | none => s2
            | none => s2
          else s2
        else if s2.mob.degree = NodeDegree.standalone then
          match mergeCheck s2.neighborList with
          | some potentialCH =>
            match lookupKey s2.neighborList potentialCH with
            | some potential => { s2 with mob := s2.mob.asCMkeepAddr potential.imsi }
            | none => { s2 with mob := s2.mob.asCH }
          | none => { s2 with mob := s2.mob.asCH }
        else s2
      else s2
    nclUpdate now otherInfo s3

/-- The InitiateClusterHeader branch of HandleRead
(cluster-control-client.cc:1028).  In CLUSTER_INITIALIZATION the source
assigns CLUSTER_HEAD_ELECTION to the status before performing the range
check, so an out of range frame leaves that assignment behind and skips
everything else of this iteration. -/
noncomputable def handleInitiateClusterMsg (C : Consts) (now : ℝ) (msgClusterId : ℕ)
    (chInfo : NeighborInfo) (s : NodeState) : NodeState :=
  if s.status = NodeStatus.clusterStart then
    let s1 := { s with status := NodeStatus.clusterHeadElection }
    let range := calculateDistance s1.mob.position chInfo.position
    if range ≥ C.omniRange then s1
    else
      let s2 :=
        match lookupKey s1.neighborList msgClusterId with
        | some _ =>
          { s1 with neighborList := upsertKey s1.neighborList msgClusterId chInfo,
                    status := NodeStatus.clusterUpdate,
                    mob := s1.mob.asCM chInfo.clusterId chInfo.address }
        | none => { s1 with status := NodeStatus.clusterStart }
      nclUpdate now chInfo s2
  else nclUpdate now chInfo s

/-- The FormClusterHeader branch of HandleRead (cluster-control-client.cc:1091).
The range check precedes every table access. -/
noncomputable def handleFormCluster (C : Consts) (otherInfo : NeighborInfo)
    (s : NodeState) : NodeState :=
  let range := calculateDistance s.mob.position otherInfo.position
  if range ≥ C.omniRange then s
  else
    let s1 := { s with neighborList := upsertKey s.neighborList otherInfo.imsi otherInfo }
    match lookupKey s1.neighborList otherInfo.clusterId with
    | some _ =>
      if s1.status = NodeStatus.clusterHeadElection then
        { s1 with status := NodeStatus.clusterUpdate,
                  mob := s1.mob.asCM otherInfo.clusterId otherInfo.address }
      else s1
    | none => s1

/-- ClusterControlClient::HasMaxId (cluster-control-client.cc:1871):
whether the node id is at least every id of a neighbor whose degree is not
CM. -/
def hasMaxId (imsi : ℕ) (neighborList : List (ℕ × NeighborInfo)) : Bool :=
  let maxId := neighborList.foldl
    (fun maxId kv =>
      if kv.2.imsi > maxId ∧ kv.2.degree ≠ NodeDegree.cm then kv.2.imsi else maxId)
    imsi
  maxId == imsi

/-- Disposition of the self scheduled InitiateCluster event. -/
inductive InitiateOutcome where
  | toClusterUpdate
  | toHeadElection
  | rescheduled
  | ignored
deriving DecidableEq

/-- ClusterControlClient::InitiateCluster (cluster-control-client.cc:1848).
The first guard of the source compares m_currentMobility.clusterId, a
numeric cluster id, against the degree enumerators CH and CM, which have
the numeric values 1 and 2. -/
def initiateClusterEvent (s : NodeState) : NodeState × InitiateOutcome :=
  if s.status = NodeStatus.clusterStart then
    if s.mob.clusterId = NodeDegree.ch.val ∨ s.mob.clusterId = NodeDegree.cm.val then
      ({ s with status := NodeStatus.clusterUpdate }, InitiateOutcome.toClusterUpdate)
    else if hasMaxId s.mob.imsi s.neighborList then
      ({ s with status := NodeStatus.clusterHeadElection }, InitiateOutcome.toHeadElection)
    else (s, InitiateOutcome.rescheduled)
  else (s, InitiateOutcome.ignored)

/-- Accumulator of the neighbor aging loop of UpdateNeighborList: the
evolving state, the hasCH flag, and whether an immediate beacon was
triggered by the empty list promotion. -/
structure UnlAcc where
  s : NodeState
  hasCH : Bool
  beacon : Bool

/-- The table refresh part of one iteration of the aging loop of
ClusterControlClient::UpdateNeighborList (cluster-control-client.cc:1934):
the old CM removal and the NeighborClusterList refresh, in source order. -/
noncomputable def unlStepTables (key : ℕ) (value : NeighborInfo) (st : NodeState) : NodeState :=
  let st1 :=
    if containsKey st.clusterList key ∧ st.mob.imsi ≠ value.clusterId then
      { st with clusterList := eraseKey st.clusterList key }
    else st
  if value.degree = NodeDegree.ch ∧ st1.mob.clusterId ≠ value.imsi then
    if containsKey st1.neighborClusterList key then st1
    else
      { st1 with neighborClusterList := upsertKey st1.neighborClusterList value.imsi value }
  else if containsKey st1.neighborClusterList key then
    { st1 with neighborClusterList := eraseKey st1.neighborClusterList key }
  else st1

/-- The eviction part of one aging iteration: erase the entry, demote on CH
loss, run the dead second erase and the ClusterList removal of the source. -/
noncomputable def unlStepEvict (key : ℕ) (value : NeighborInfo) (st2 : NodeState) : NodeState :=
  let st3 := { st2 with neighborList := eraseKey st2.neighborList key }
  let st4 :=
    if value.imsi = st3.mob.clusterId then
      { st3 with mob := { st3.mob with clusterId := 0, degree := NodeDegree.standalone },
                 status := NodeStatus.clusterStart }
    else st3
  let st5 :=
    if containsKey st4.neighborList key then
      { st4 with neighborList := eraseKey st4.neighborList key }
    else st4
  if containsKey st5.clusterList key then
    { st5 with clusterList := eraseKey st5.clusterList key }
  else st5

/-- One full iteration of the aging loop. -/
noncomputable def unlStep (now interval : ℝ) (key : ℕ) (value : NeighborInfo)
    (acc : UnlAcc) : UnlAcc :=
  let st := acc.s
  let hasCH1 := acc.hasCH ||
    (decide (st.mob.clusterId = value.imsi) && decide (st.mob.clusterId = value.clusterId) &&
      decide (value.degree = NodeDegree.ch))
  let st2 := unlStepTables key value st
  if now - value.ts > 2.0 * interval then
    let st6 := unlStepEvict key value st2
    if st6.neighborList.length = 0 ∧ st6.mob.degree ≠ NodeDegree.ch then
      ⟨{ st6 with mob := st6.mob.asCH }, hasCH1, true⟩
    else ⟨st6, hasCH1, acc.beacon⟩
  else ⟨st2, hasCH1, acc.beacon⟩

/-- The neighbor aging loop of UpdateNeighborList as a walk over the
snapshot of the neighbor entries (the C++ iterator only ever erases the
entry under the cursor, so walking the initial entry list is equivalent). -/
noncomputable def unlLoop (now interval : ℝ) : List (ℕ × NeighborInfo) → UnlAcc → UnlAcc
  | [], acc => acc
  | kv :: rest, acc => unlLoop now interval rest (unlStep now interval kv.1 kv.2 acc)

/-- ClusterControlClient::UpdateNeighborList (cluster-control-client.cc:1927):
AcquireMobilityInfo stamps the node with the current time, the main loop
runs over the neighbor entries, the CM without CH demotion follows, and
the NeighborClusterList is aged.  The boolean reports whether an immediate
beacon was scheduled. -/
noncomputable def updateNeighborList (now interval : ℝ) (s : NodeState) : NodeState × Bool :=
  let s0 := { s with mob := { s.mob with ts := now } }
  let res := unlLoop now interval s0.neighborList ⟨s0, false, false⟩
  let s1 := res.s
  let s2 :=
    if s1.mob.degree = NodeDegree.cm ∧ res.hasCH = false then
      { s1 with mob := { s1.mob with clusterId := UINT64_MAX, degree := NodeDegree.standalone } }
    else s1
  let s3 := { s2 with neighborClusterList :=
      s2.neighborClusterList.filter (fun kv => !decide (now - kv.2.ts > 2.0 * interval)) }
  (s3, res.beacon)

/-- Degree shape reachable after the aging loop demoted the node: either the
CH loss left it standalone, or the empty list promotion made it a CH of an
empty neighborhood. -/
def DegInv (st : NodeState) : Prop :=
  st.mob.degree = NodeDegree.standalone ∨
    (st.mob.degree = NodeDegree.ch ∧ st.neighborList = [])

/-- The accumulator produced by the aging loop of UpdateNeighborList, before
the CM without CH demotion and the NeighborClusterList aging. -/
noncomputable def unlRes (now interval : ℝ) (s : NodeState) : UnlAcc :=
  unlLoop now interval ({ s with mob := { s.mob with ts := now } } : NodeState).neighborList
    ⟨{ s with mob := { s.mob with ts := now } }, false, false⟩

/-! ### List helper lemmas -/

theorem mem_eraseKey {α : Type} {l : List (ℕ × α)} {k : ℕ} {kv : ℕ × α} :
    kv ∈ eraseKey l k ↔ kv ∈ l ∧ kv.1 ≠ k := by
  unfold eraseKey
  rw [List.mem_filter]
  simp [bne_iff_ne]

theorem eraseKey_idem {α : Type} (l : List (ℕ × α)) (k : ℕ) :
    eraseKey (eraseKey l k) k = eraseKey l k := by
  unfold eraseKey
  rw [List.filter_filter]
  congr 1
  funext kv
  cases h : kv.1 != k <;> simp [h]

theorem lookup_upsertKey_self {α : Type} (l : List (ℕ × α)) (k : ℕ) (v : α) :
    lookupKey (upsertKey l k v) k = some v := by
  induction l with
  | nil => simp [upsertKey, lookupKey]
  | cons kv rest ih =>
    by_cases h : kv.1 = k
    · simp [upsertKey, h, lookupKey]
    · simp [upsertKey, h, lookupKey, ih]

theorem lookup_upsertKey_ne {α : Type} (l : List (ℕ × α)) (k k' : ℕ) (v : α) (h : k' ≠ k) :
    lookupKey (upsertKey l k v) k' = lookupKey l k' := by
  induction l with
  | nil =>
    simp only [upsertKey, lookupKey]
    rw [if_neg (fun e => h e.symm)]
  | cons kv rest ih =>
    simp only [upsertKey]
    by_cases hk : kv.1 = k
    · rw [if_pos hk]
      simp only [lookupKey]
      rw [if_neg (fun e => h e.symm), if_neg (fun e => h (hk.symm.trans e).symm)]
    · rw [if_neg hk]
      simp only [lookupKey]
      by_cases hk' : kv.1 = k'
      · rw [if_pos hk', if_pos hk']
      · rw [if_neg hk', if_neg hk', ih]

theorem lookup_of_mem_nodup {α : Type} {l : List (ℕ × α)} {kv : ℕ × α}
    (hmem : kv ∈ l) (hnodup : (l.map Prod.fst).Nodup) :
    lookupKey l kv.1 = some kv.2 := by
  induction l with
  | nil => cases hmem
  | cons hd rest ih =>
    rcases List.mem_cons.mp hmem with h | h
    · subst h
      simp [lookupKey]
    · have hne : hd.1 ≠ kv.1 := by
        intro he
        have : kv.1 ∈ rest.map Prod.fst := List.mem_map_of_mem Prod.fst h
        rw [List.map_cons, List.nodup_cons] at hnodup
        exact hnodup.1 (he ▸ this)
      have hrest : (rest.map Prod.fst).Nodup := by
        rw [List.map_cons, List.nodup_cons] at hnodup
        exact hnodup.2
      simp [lookupKey, hne, ih h hrest]

/-! ### Witness fixtures: concrete values used to instantiate the theorems -/

def baseVec : Vec3 := ⟨0, 0, 0⟩

def baseInfo : NeighborInfo :=
  { ts := 0, imsi := 0, clusterId := 0, degree := NodeDegree.standalone,
    isStartingNode := false, position := baseVec, address := 0, chAddress := 0 }

def baseState : NodeState :=
  { status := NodeStatus.clusterStart, mob := baseInfo, neighborList := [],
    clusterList := [], neighborClusterList := [], neighborDistroMap := [],
    neighborClustersSocket := [], ackDistroMap := [], ackInterClusterPropagation := [],
    firstPropagationStartingTime := 0, firstPropagationStartNodeId := 0,
    propagationStartTime := 0, propagationDirection := baseVec,
    basePropagationDirection := baseVec }

/-- A CH neighbor entry whose timestamp is stale at time 1 for any positive
interval below one half. -/
def c8Entry : NeighborInfo :=
  { baseInfo with ts := 0, imsi := 2, clusterId := 2, degree := NodeDegree.ch }

/-- A CM node whose only neighbor is its own stale CH. -/
def c8State : NodeState :=
  { baseState with
      mob := { baseInfo with imsi := 7, clusterId := 2, degree := NodeDegree.cm },
      neighborList := [(2, c8Entry)] }

noncomputable def baseConsts : Consts :=
  { omniRange := 100, propagationTheta := Real.pi, bfRange := 100,
    distroMapSize := 2, distroMapScale := 1, reversePropagation := false }

/-! ### C10: late ScheduleInterNodePropagation -/

theorem scheduleInterNodePropagation_first_eq (reverse : Bool) (now : ℝ) (s : NodeState) :
    (scheduleInterNodePropagation reverse now s).1.firstPropagationStartingTime =
      s.firstPropagationStartingTime := by
  unfold scheduleInterNodePropagation
  dsimp only
  split <;> first | rfl | (split <;> rfl)

/-- C10: when ScheduleInterNodePropagation runs strictly after the recorded
propagation start time, the status is still set to PROPAGATION_READY but no
StartNodePropagation event is scheduled, so this invocation cannot reach
PROPAGATION_RUNNING and the node stays in PROPAGATION_READY until some
later frame re-schedules it. -/
theorem scheduleInterNodePropagation_late (reverse : Bool) (now : ℝ) (s : NodeState)
    (h : now > s.propagationStartTime) :
    (scheduleInterNodePropagation reverse now s).1 =
      { s with status := NodeStatus.propagationReady } ∧
    (scheduleInterNodePropagation reverse now s).2 = none := by
  have hall : scheduleInterNodePropagation reverse now s =
      ({ s with status := NodeStatus.propagationReady }, none) := by
    unfold scheduleInterNodePropagation
    exact if_pos h
  exact ⟨by rw [hall], by rw [hall]⟩

theorem scheduleInterNodePropagation_late_witness :
    (scheduleInterNodePropagation false 10 baseState).1 =
      { baseState with status := NodeStatus.propagationReady } ∧
    (scheduleInterNodePropagation false 10 baseState).2 = none :=
  scheduleInterNodePropagation_late false 10 baseState (by norm_num [baseState])

/-! ### C1: monotonicity of firstPropagationStartingTime -/

def baseICInfo : InterClusterPropagationInfo :=
  { startingTime := 0, source := baseVec, distination := baseVec, direction := baseVec }

def baseIntraInfo : IntraClusterPropagationInfo :=
  { startingNode := 0, startingTime := 0, direction := baseVec }

theorem transmitStep_first_eq (C : Consts) (p v : Vec3) (iv : ℝ)
    (acc : NodeState × List InterChMsg × Vec3 × ℕ) (kd : ℕ × List ℝ) :
    (transmitStep C p v iv acc kd).1.firstPropagationStartingTime =
      acc.1.firstPropagationStartingTime := by
  unfold transmitStep
  dsimp only
  split <;> rfl

theorem foldl_transmitStep_first_eq (C : Consts) (p v : Vec3) (iv : ℝ)
    (l : List (ℕ × List ℝ)) (acc : NodeState × List InterChMsg × Vec3 × ℕ) :
    (l.foldl (transmitStep C p v iv) acc).1.firstPropagationStartingTime =
      acc.1.firstPropagationStartingTime := by
  induction l generalizing acc with
  | nil => rfl
  | cons kd rest ih => rw [List.foldl_cons, ih, transmitStep_first_eq]

theorem transmitPropagationDirection_first_eq (C : Consts) (disable : Bool) (now : ℝ)
    (id : ℕ) (pv : Vec3) (s : NodeState) :
    (transmitPropagationDirection C disable now id pv s).1.firstPropagationStartingTime =
      s.firstPropagationStartingTime := by
  unfold transmitPropagationDirection
  dsimp only
  split
  · rfl
  · split
    · rw [scheduleInterNodePropagation_first_eq]
      exact foldl_transmitStep_first_eq _ _ _ _ _ _
    · exact foldl_transmitStep_first_eq _ _ _ _ _ _

/-- C1: once firstPropagationStartingTime is set, the InterClusterPropagation
handler and the IntraClusterPropagation handler only ever replace it by a
value at most its current one.  The hypothesis records the relation
propagationStartTime at most firstPropagationStartingTime, which the
handlers that set both fields maintain; the intra cluster guard tests the
former, so the bound on the latter rests on it. -/
theorem propagation_handlers_first_nonincreasing (C : Consts) (disable reverse : Bool)
    (now : ℝ) (senderClusterId intraClusterId : ℕ)
    (ic : InterClusterPropagationInfo) (intra : IntraClusterPropagationInfo) (s : NodeState)
    (h : s.propagationStartTime ≤ s.firstPropagationStartingTime) :
    (handlePacketInterClusterProp C disable now senderClusterId ic
        s).1.firstPropagationStartingTime ≤ s.firstPropagationStartingTime ∧
    (handleIntraClusterPropagation disable reverse now intraClusterId intra
        s).1.firstPropagationStartingTime ≤ s.firstPropagationStartingTime := by
  constructor
  · unfold handlePacketInterClusterProp
    dsimp only
    split
    all_goals
      split
      · rename_i hgt
        rw [transmitPropagationDirection_first_eq]
        exact le_of_lt hgt
      · exact le_refl _
  · unfold handleIntraClusterPropagation
    dsimp only
    split
    · split
      · rw [scheduleInterNodePropagation_first_eq]
        split
        · rename_i hguard
          exact le_trans hguard.1 h
        · exact le_refl _
      · exact le_refl _
    · exact le_refl _

theorem propagation_handlers_first_nonincreasing_witness :
    (handlePacketInterClusterProp baseConsts false 0 0 baseICInfo
        baseState).1.firstPropagationStartingTime ≤ baseState.firstPropagationStartingTime ∧
    (handleIntraClusterPropagation false false 0 0 baseIntraInfo
        baseState).1.firstPropagationStartingTime ≤ baseState.firstPropagationStartingTime :=
  propagation_handlers_first_nonincreasing baseConsts false false 0 0 0 baseICInfo
    baseIntraInfo baseState (by norm_num [baseState])

/-! ### C9: the KDE evaluation is the raw kernel sum -/

/-- The true inverse of a two by two matrix, used to state the claim
independently of the code path of invert. -/
noncomputable def mat2Inv (m : Mat2) : Mat2 :=
  ⟨m.h3 / det2 m, -m.h1 / det2 m, -m.h2 / det2 m, m.h0 / det2 m⟩

/-- Quadratic form of a matrix, the claim side spelling of
vᵀ M v for the two dimensional case. -/
noncomputable def quadForm (m : Mat2) (v : ℝ × ℝ) : ℝ :=
  v.1 * (m.h0 * v.1 + m.h1 * v.2) + v.2 * (m.h2 * v.1 + m.h3 * v.2)

theorem foldl_add_map_sum (f : (ℝ × ℝ) → ℝ) (l : List (ℝ × ℝ)) (a : ℝ) :
    l.foldl (fun sum i => sum + f i) a = a + (l.map f).sum := by
  induction l generalizing a with
  | nil => simp
  | cons x rest ih => simp [List.foldl_cons, ih, add_assoc]

theorem two_pi_rpow_neg_one : (2 * Real.pi) ^ (-(2 : ℝ) / 2) = (2 * Real.pi)⁻¹ := by
  rw [show (-(2 : ℝ) / 2) = -1 by norm_num, Real.rpow_neg_one]

/-- C9: for a Kde2d successfully constructed from at least two samples and
a usable bandwidth, eval at a point returns the plain sum over the samples
of det(H)^(-1/2) * (2*pi)^(-1) * exp(-(1/2) * (p - xi)ᵀ H⁻¹ (p - xi)),
with no division by the number of samples.  Construction also requires a
positive determinant: a negative one makes the precomputed power NaN and
the constructor throws, so eval is only reachable under it. -/
theorem kde2d_eval_raw_sum (data : List (ℝ × ℝ)) (bw : Mat2) (p : ℝ × ℝ) (k : Kde2d)
    (hk : mkKde2d data bw = Except.ok k) :
    k.eval p = (data.map (fun xi =>
      det2 bw ^ (-(1 : ℝ) / 2) * (2 * Real.pi)⁻¹ *
        Real.exp (-1 / 2 * quadForm (mat2Inv bw) (p.1 - xi.1, p.2 - xi.2)))).sum := by
  unfold mkKde2d invert2 at hk
  by_cases h2 : data.length < 2
  · rw [if_pos h2] at hk
    cases hk
  rw [if_neg h2] at hk
  by_cases hdet : det2 bw = 0
  · rw [if_pos hdet] at hk
    cases hk
  rw [if_neg hdet] at hk
  dsimp only at hk
  by_cases hneg : det2 bw < 0
  · rw [if_pos hneg] at hk
    cases hk
  rw [if_neg hneg] at hk
  injection hk with hk
  subst hk
  unfold Kde2d.eval
  dsimp only
  rw [foldl_add_map_sum (fun i => Kde2d.kernel _ (p.1 - i.1, p.2 - i.2)) data 0, zero_add]
  refine congrArg List.sum (List.map_congr_left ?_)
  intro xi _
  unfold Kde2d.kernel
  dsimp only
  rw [two_pi_rpow_neg_one]
  rw [show (p.1 - xi.1) * (bw.h3 / det2 bw) + (p.2 - xi.2) * (-1 * bw.h2 / det2 bw) =
      ((p.1 - xi.1) * bw.h3 - (p.2 - xi.2) * bw.h2) / det2 bw from by ring]
  rw [show (p.1 - xi.1) * (-1 * bw.h1 / det2 bw) + (p.2 - xi.2) * (bw.h0 / det2 bw) =
      ((p.2 - xi.2) * bw.h0 - (p.1 - xi.1) * bw.h1) / det2 bw from by ring]
  rw [show quadForm (mat2Inv bw) (p.1 - xi.1, p.2 - xi.2) =
      ((p.1 - xi.1) * bw.h3 - (p.2 - xi.2) * bw.h2) / det2 bw * (p.1 - xi.1) +
        ((p.2 - xi.2) * bw.h0 - (p.1 - xi.1) * bw.h1) / det2 bw * (p.2 - xi.2) from by
    unfold quadForm mat2Inv
    dsimp only
    ring]
  ring

noncomputable def kdeWitnessData : List (ℝ × ℝ) := [(0, 0), (1, 0)]

noncomputable def kdeWitnessBw : Mat2 := ⟨1, 0, 0, 1⟩

noncomputable def kdeWitnessK : Kde2d :=
  { data := kdeWitnessData, h := kdeWitnessBw
    hInv := ⟨kdeWitnessBw.h3 / det2 kdeWitnessBw, -1 * kdeWitnessBw.h1 / det2 kdeWitnessBw,
      -1 * kdeWitnessBw.h2 / det2 kdeWitnessBw, kdeWitnessBw.h0 / det2 kdeWitnessBw⟩
    powPiTerm := (2 * Real.pi) ^ (-(2 : ℝ) / 2)
    hPowTerm := det2 kdeWitnessBw ^ (-(1 : ℝ) / 2) }

theorem kde2d_eval_raw_sum_witness :
    Kde2d.eval kdeWitnessK ((0 : ℝ), (0 : ℝ)) = (kdeWitnessData.map (fun xi =>
      det2 kdeWitnessBw ^ (-(1 : ℝ) / 2) * (2 * Real.pi)⁻¹ *
        Real.exp (-1 / 2 * quadForm (mat2Inv kdeWitnessBw)
          (((0 : ℝ), (0 : ℝ)).1 - xi.1, ((0 : ℝ), (0 : ℝ)).2 - xi.2)))).sum := by
  have hdet : det2 kdeWitnessBw = 1 := by
    unfold det2 kdeWitnessBw
    norm_num
  have hok : mkKde2d kdeWitnessData kdeWitnessBw = Except.ok kdeWitnessK := by
    unfold mkKde2d invert2
    rw [if_neg (by norm_num [kdeWitnessData]), if_neg (by rw [hdet]; norm_num)]
    dsimp only
    rw [if_neg (by rw [hdet]; norm_num)]
    rfl
  exact kde2d_eval_raw_sum kdeWitnessData kdeWitnessBw ((0 : ℝ), (0 : ℝ)) kdeWitnessK hok

/-! ### C7: the self scheduled InitiateCluster election check -/

def c7State : NodeState :=
  { baseState with mob := { baseInfo with imsi := 5, clusterId := 1 } }

/-- C7 (code divergence): a node in CLUSTER_INITIALIZATION whose clusterId
equals the numeric value of the degree enumerator CH satisfies HasMaxId,
yet the InitiateCluster event moves it to CLUSTER_UPDATE instead of
CLUSTER_HEAD_ELECTION, because the source compares the clusterId field
against the degree enumerators.  The claim and the spec table say the
transition is decided by HasMaxId alone. -/
theorem initiateClusterEvent_degree_confusion :
    c7State.status = NodeStatus.clusterStart ∧
    hasMaxId c7State.mob.imsi c7State.neighborList = true ∧
    (initiateClusterEvent c7State).1.status = NodeStatus.clusterUpdate ∧
    (initiateClusterEvent c7State).2 = InitiateOutcome.toClusterUpdate := by
  exact ⟨rfl, rfl, rfl, rfl⟩

/-! ### C5: density map exchange, acknowledgement and retry -/

def c5State : NodeState := { baseState with neighborClustersSocket := [7] }

/-- C5 counterexample: entering EXCHANGE_DISTRO_MAP with one peer marks
the ack entry false but sends nothing, because the Simulator::Schedule
handing the DistroMap packet to SendTo is commented out in the source. -/
theorem exchangeDistroMap_no_frame_sent :
    (¬ ∃ m, m ∈ (exchangeDistroMap c5State).2) ∧
    lookupKey (exchangeDistroMap c5State).1.ackDistroMap 7 = some false := by
  constructor
  · rintro ⟨m, hm⟩
    rw [show (exchangeDistroMap c5State).2 = [] from rfl] at hm
    cases hm
  · rfl

theorem exchange_fold_msgs (l : List ℕ) (acc : NodeState × List InterChMsg) :
    (l.foldl (fun acc id =>
        ({ acc.1 with ackDistroMap := upsertKey acc.1.ackDistroMap id false }, acc.2))
      acc).2 = acc.2 := by
  induction l generalizing acc with
  | nil => rfl
  | cons id rest ih =>
    rw [List.foldl_cons]
    exact ih _

theorem exchange_fold_status (l : List ℕ) (acc : NodeState × List InterChMsg) :
    (l.foldl (fun acc id =>
        ({ acc.1 with ackDistroMap := upsertKey acc.1.ackDistroMap id false }, acc.2))
      acc).1.status = acc.1.status := by
  induction l generalizing acc with
  | nil => rfl
  | cons id rest ih =>
    rw [List.foldl_cons]
    exact ih _

theorem exchange_fold_ack (l : List ℕ) (acc : NodeState × List InterChMsg) (i : ℕ)
    (hi : i ∈ l ∨ lookupKey acc.1.ackDistroMap i = some false) :
    lookupKey ((l.foldl (fun acc id =>
        ({ acc.1 with ackDistroMap := upsertKey acc.1.ackDistroMap id false }, acc.2))
      acc).1).ackDistroMap i = some false := by
  induction l generalizing acc with
  | nil =>
    rcases hi with hmem | hlk
    · cases hmem
    · exact hlk
  | cons id rest ih =>
    rw [List.foldl_cons]
    apply ih
    rcases hi with hmem | hlk
    · rcases List.mem_cons.mp hmem with he | hm
      · right
        subst he
        exact lookup_upsertKey_self _ _ _
      · left
        exact hm
    · right
      by_cases hii : i = id
      · subst hii
        exact lookup_upsertKey_self _ _ _
      · rw [lookup_upsertKey_ne _ _ _ _ hii]
        exact hlk

/-- C5 amended: entering EXCHANGE_DISTRO_MAP marks every peer ack entry
false and builds the DistroMap frames, but the transmission is disabled in
the source, so no frame is sent and there is nothing to retry; entering
DECIDE_PROPAGATION_PARAM flips every outstanding ack to true, which makes
any running SendTo retry loop stop; each received DistroMap produces
exactly one Ack, delivered once by SendTo with a null ack pointer; SendTo
re-sends after MinimumTdmaSlot times 1000 exactly while an ack cell holds
false. -/
theorem distroMapExchange_behavior (s : NodeState) (acks : List (ℕ × Bool))
    (id : ℕ) (oi : NeighborInfo) (dm : List ℝ) (slot : ℝ) :
    (exchangeDistroMap s).2 = [] ∧
    (exchangeDistroMap s).1.status = NodeStatus.exchangeDistroMap ∧
    (∀ i ∈ s.neighborClustersSocket,
      lookupKey (exchangeDistroMap s).1.ackDistroMap i = some false) ∧
    (∀ kv ∈ decidePropagationAcks acks, kv.2 = true) ∧
    (decidePropagationParamAckPhase s).status = NodeStatus.decidePropagationParam ∧
    (handleDistroMapFrame id oi dm s).2 = [InterChMsg.ackMsg id 0] ∧
    sendToStep slot true (some false) = (true, some (slot * 1000)) ∧
    sendToStep slot true (some true) = (false, none) ∧
    sendToStep slot true none = (true, none) := by
  refine ⟨?_, ?_, ?_, ?_, rfl, rfl, rfl, rfl, rfl⟩
  · exact exchange_fold_msgs _ _
  · exact exchange_fold_status _ _
  · intro i hi
    exact exchange_fold_ack _ _ i (Or.inl hi)
  · intro kv hkv
    unfold decidePropagationAcks at hkv
    rcases List.mem_map.mp hkv with ⟨kv', _, heq⟩
    by_cases hb : kv'.2 = false
    · rw [if_pos hb] at heq
      rw [← heq]
    · rw [if_neg hb] at heq
      rw [← heq]
      cases h2 : kv'.2 with
      | false => exact absurd h2 hb
      | true => rfl

theorem distroMapExchange_behavior_witness :
    lookupKey (exchangeDistroMap c5State).1.ackDistroMap 7 = some false :=
  (distroMapExchange_behavior c5State [] 0 baseInfo [] 1).2.2.1 7 (by simp [c5State])

/-! ### C2: inbound InterClusterPropagation at a cluster head -/

theorem foldl_nearest (pos : Vec3) (l : List (ℕ × NeighborInfo)) (init : ℕ × ℝ) :
    ((l.foldl (fun acc kv =>
        let dist := sqDist3 pos kv.2.position
        if acc.2 > dist then (kv.1, dist) else acc) init).2 ≤ init.2) ∧
    (∀ kv ∈ l, (l.foldl (fun acc kv =>
        let dist := sqDist3 pos kv.2.position
        if acc.2 > dist then (kv.1, dist) else acc) init).2 ≤ sqDist3 pos kv.2.position) ∧
    ((l.foldl (fun acc kv =>
        let dist := sqDist3 pos kv.2.position
        if acc.2 > dist then (kv.1, dist) else acc) init) = init ∨
      ∃ kv ∈ l, (l.foldl (fun acc kv =>
        let dist := sqDist3 pos kv.2.position
        if acc.2 > dist then (kv.1, dist) else acc) init) = (kv.1, sqDist3 pos kv.2.position)) := by
  induction l generalizing init with
  | nil =>
    exact ⟨le_refl _, fun kv h => absurd h (List.not_mem_nil kv), Or.inl rfl⟩
  | cons hd tl ih =>
    rw [List.foldl_cons]
    dsimp only
    by_cases hlt : init.2 > sqDist3 pos hd.2.position
    · rw [if_pos hlt]
      rcases ih (hd.1, sqDist3 pos hd.2.position) with ⟨h1, h2, h3⟩
      refine ⟨le_trans h1 (le_of_lt hlt), ?_, ?_⟩
      · intro kv hkv
        rcases List.mem_cons.mp hkv with he | hm
        · subst he
          exact h1
        · exact h2 kv hm
      · rcases h3 with he | ⟨kv, hkv, he⟩
        · exact Or.inr ⟨hd, List.mem_cons_self hd tl, he⟩
        · exact Or.inr ⟨kv, List.mem_cons_of_mem hd hkv, he⟩
    · rw [if_neg hlt]
      rcases ih init with ⟨h1, h2, h3⟩
      refine ⟨h1, ?_, ?_⟩
      · intro kv hkv
        rcases List.mem_cons.mp hkv with he | hm
        · subst he
          exact le_trans h1 (not_lt.mp hlt)
        · exact h2 kv hm
      · rcases h3 with he | ⟨kv, hkv, he⟩
        · exact Or.inl he
        · exact Or.inr ⟨kv, List.mem_cons_of_mem hd hkv, he⟩

/-- The candidate position selected by the InterClusterPropagation handler
(cluster-control-client.cc:1388): the position of the own node when
FindNodeByPosition returned the own id, the looked up member position
otherwise. -/
noncomputable def interClusterCandidatePos (s : NodeState) (pos : Vec3) : Vec3 :=
  if findNodeByPosition s pos = s.mob.imsi then s.mob.position
  else
    match lookupKey s.clusterList (findNodeByPosition s pos) with
    | some n => n.position
    | none => ⟨0, 0, 0⟩

/-- The candidate start time startingTime + delay * 1.3 computed by the
InterClusterPropagation handler. -/
noncomputable def interClusterNewTime (s : NodeState) (info : InterClusterPropagationInfo) : ℝ :=
  info.startingTime +
    calcPropagationDelay info.source (interClusterCandidatePos s info.distination)
      info.direction * 1.3

theorem findNode_candidate_dist (s : NodeState) (pos : Vec3)
    (hnodup : (s.clusterList.map Prod.fst).Nodup)
    (hself : s.mob.imsi ∉ s.clusterList.map Prod.fst) :
    sqDist3 pos (interClusterCandidatePos s pos) = (findNodeByPositionAux s pos).2 := by
  rcases (foldl_nearest pos s.clusterList (s.mob.imsi, sqDist3 pos s.mob.position)).2.2 with
    he | ⟨kv, hkv, he⟩
  · have haux : findNodeByPositionAux s pos = (s.mob.imsi, sqDist3 pos s.mob.position) := he
    unfold interClusterCandidatePos findNodeByPosition
    rw [haux]
    dsimp only
    rw [if_pos rfl]
  · have haux : findNodeByPositionAux s pos = (kv.1, sqDist3 pos kv.2.position) := he
    have hne : kv.1 ≠ s.mob.imsi := by
      intro h
      exact hself (h ▸ List.mem_map_of_mem Prod.fst hkv)
    unfold interClusterCandidatePos findNodeByPosition
    rw [haux]
    dsimp only
    rw [if_neg hne, lookup_of_mem_nodup hkv hnodup]

/-- The InterClusterPropagation handler written with the named candidate
abbreviations; the two sides unfold to the same term. -/
theorem handlePacketInterClusterProp_def_eq (C : Consts) (disable : Bool) (now : ℝ)
    (senderClusterId : ℕ) (info : InterClusterPropagationInfo) (s : NodeState) :
    handlePacketInterClusterProp C disable now senderClusterId info s =
      (let res :=
        if s.firstPropagationStartingTime > interClusterNewTime s info then
          transmitPropagationDirection C disable now (findNodeByPosition s info.distination)
            info.direction
            { s with firstPropagationStartingTime := interClusterNewTime s info,
                     firstPropagationStartNodeId := findNodeByPosition s info.distination }
        else (s, [], false)
      (res.1, res.2.1 ++ [InterChMsg.ackMsg senderClusterId 1], res.2.2)) := rfl

theorem calcPropagationDelay_eq_proj (source destination direction : Vec3) :
    calcPropagationDelay source destination direction =
      |(direction.x * (destination.x - source.x) + direction.y * (destination.y - source.y)) /
          Real.sqrt (direction.x * direction.x + direction.y * direction.y)| /
        Real.sqrt (direction.x * direction.x + direction.y * direction.y) := by
  unfold calcPropagationDelay
  dsimp only
  have hnn : (0 : ℝ) ≤ direction.x * direction.x + direction.y * direction.y :=
    add_nonneg (mul_self_nonneg _) (mul_self_nonneg _)
  have hs : Real.sqrt (direction.x * direction.x + direction.y * direction.y) *
      Real.sqrt (direction.x * direction.x + direction.y * direction.y) =
        direction.x * direction.x + direction.y * direction.y :=
    Real.mul_self_sqrt hnn
  rw [abs_div, abs_div, abs_of_nonneg hnn, abs_of_nonneg (Real.sqrt_nonneg _), div_div, hs]

/-- C2: on an inbound InterClusterPropagation frame the receiver selects,
among its cluster members and itself, the node nearest the announced
destination; the delay is the absolute projection of that node minus the
source onto the unit direction axis, divided by the direction speed; and
the new time startingTime + delay * 1.3 is adopted, with the solver re-run
from the candidate node, exactly when it is strictly earlier than the
recorded firstPropagationStartingTime. -/
theorem handlePacketInterCluster_spec (C : Consts) (disable : Bool) (now : ℝ)
    (senderClusterId : ℕ) (info : InterClusterPropagationInfo) (s : NodeState)
    (hnodup : (s.clusterList.map Prod.fst).Nodup)
    (hself : s.mob.imsi ∉ s.clusterList.map Prod.fst) :
    (∀ kv ∈ s.clusterList,
      sqDist3 info.distination (interClusterCandidatePos s info.distination) ≤
        sqDist3 info.distination kv.2.position) ∧
    sqDist3 info.distination (interClusterCandidatePos s info.distination) ≤
      sqDist3 info.distination s.mob.position ∧
    calcPropagationDelay info.source (interClusterCandidatePos s info.distination)
        info.direction =
      |(info.direction.x * ((interClusterCandidatePos s info.distination).x - info.source.x) +
          info.direction.y * ((interClusterCandidatePos s info.distination).y - info.source.y)) /
          Real.sqrt (info.direction.x * info.direction.x +
            info.direction.y * info.direction.y)| /
        Real.sqrt (info.direction.x * info.direction.x +
          info.direction.y * info.direction.y) ∧
    (s.firstPropagationStartingTime > interClusterNewTime s info →
      (handlePacketInterClusterProp C disable now senderClusterId info s).1 =
        (transmitPropagationDirection C disable now (findNodeByPosition s info.distination)
          info.direction
          { s with firstPropagationStartingTime := interClusterNewTime s info,
                   firstPropagationStartNodeId := findNodeByPosition s info.distination }).1) ∧
    (¬ s.firstPropagationStartingTime > interClusterNewTime s info →
      (handlePacketInterClusterProp C disable now senderClusterId info s).1 = s) := by
  refine ⟨?_, ?_, calcPropagationDelay_eq_proj _ _ _, ?_, ?_⟩
  · intro kv hkv
    rw [findNode_candidate_dist s info.distination hnodup hself]
    exact (foldl_nearest info.distination s.clusterList
      (s.mob.imsi, sqDist3 info.distination s.mob.position)).2.1 kv hkv
  · rw [findNode_candidate_dist s info.distination hnodup hself]
    exact (foldl_nearest info.distination s.clusterList
      (s.mob.imsi, sqDist3 info.distination s.mob.position)).1
  · intro h
    rw [handlePacketInterClusterProp_def_eq]
    dsimp only
    rw [if_pos h]
  · intro h
    rw [handlePacketInterClusterProp_def_eq]
    dsimp only
    rw [if_neg h]

def c2Member : NeighborInfo := { baseInfo with imsi := 3, position := ⟨1, 0, 0⟩ }

def c2State : NodeState :=
  { baseState with mob := { baseInfo with imsi := 1 }, clusterList := [(3, c2Member)] }

def c2IC : InterClusterPropagationInfo :=
  { startingTime := 0, source := baseVec, distination := ⟨1, 0, 0⟩, direction := ⟨1, 0, 0⟩ }

theorem handlePacketInterCluster_spec_witness :
    sqDist3 c2IC.distination (interClusterCandidatePos c2State c2IC.distination) ≤
      sqDist3 c2IC.distination c2Member.position :=
  (handlePacketInterCluster_spec baseConsts false 0 0 c2IC c2State
    (by simp [c2State]) (by simp [c2State])).1 (3, c2Member) (by simp [c2State])

/-! ### C6: out of range beacons -/

def c6Info : NeighborInfo :=
  { baseInfo with imsi := 2, clusterId := 2, degree := NodeDegree.ch, position := ⟨100, 0, 0⟩ }

theorem c6_range_eq : calculateDistance baseState.mob.position c6Info.position = 100 := by
  unfold calculateDistance
  rw [show (baseState.mob.position.x - c6Info.position.x) *
        (baseState.mob.position.x - c6Info.position.x) +
      (baseState.mob.position.y - c6Info.position.y) *
        (baseState.mob.position.y - c6Info.position.y) +
      (baseState.mob.position.z - c6Info.position.z) *
        (baseState.mob.position.z - c6Info.position.z) = 100 ^ 2 from by
    norm_num [baseState, baseInfo, baseVec, c6Info]]
  exact Real.sqrt_sq (by norm_num)

/-- C6 counterexample: an InitiateCluster beacon advertised from distance
OMNI_RANGE is dropped by the range filter, yet the receiver in
CLUSTER_INITIALIZATION has already moved to CLUSTER_HEAD_ELECTION, because
the source assigns the status before the range check; so processing an out
of range beacon does change the protocol state. -/
theorem handleInitiateCluster_outOfRange_changes_status :
    calculateDistance baseState.mob.position c6Info.position ≥ baseConsts.omniRange ∧
    baseState.status = NodeStatus.clusterStart ∧
    handleInitiateClusterMsg baseConsts 0 2 c6Info baseState =
      { baseState with status := NodeStatus.clusterHeadElection } ∧
    NodeStatus.clusterHeadElection ≠ baseState.status := by
  have hr : calculateDistance baseState.mob.position c6Info.position ≥ baseConsts.omniRange := by
    rw [c6_range_eq]
    unfold baseConsts
    norm_num
  refine ⟨hr, rfl, ?_, by decide⟩
  unfold handleInitiateClusterMsg
  rw [if_pos (show baseState.status = NodeStatus.clusterStart from rfl)]
  dsimp only
  rw [if_pos hr]

/-- C6 amended: an out of range ClusterInfo or FormCluster beacon leaves
the whole state unchanged; an out of range InitiateCluster received in
CLUSTER_INITIALIZATION changes only the status, to CLUSTER_HEAD_ELECTION;
received in any other state the range check is bypassed entirely and the
frame still performs the NeighborClusterList refresh, which touches no
other table and neither degree, clusterId nor status. -/
theorem outOfRange_beacon_effect (C : Consts) (now : ℝ) (msgClusterId : ℕ)
    (info : NeighborInfo) (s : NodeState)
    (hrange : calculateDistance s.mob.position info.position ≥ C.omniRange) :
    handleClusterInfo C now info s = s ∧
    handleFormCluster C info s = s ∧
    (s.status = NodeStatus.clusterStart →
      handleInitiateClusterMsg C now msgClusterId info s =
        { s with status := NodeStatus.clusterHeadElection }) ∧
    (s.status ≠ NodeStatus.clusterStart →
      handleInitiateClusterMsg C now msgClusterId info s = nclUpdate now info s) ∧
    (nclUpdate now info s).neighborList = s.neighborList ∧
    (nclUpdate now info s).clusterList = s.clusterList ∧
    (nclUpdate now info s).mob = s.mob ∧
    (nclUpdate now info s).status = s.status := by
  refine ⟨?_, ?_, ?_, ?_, ?_, ?_, ?_, ?_⟩
  · unfold handleClusterInfo
    dsimp only
    rw [if_pos hrange]
  · unfold handleFormCluster
    dsimp only
    rw [if_pos hrange]
  · intro hst
    unfold handleInitiateClusterMsg
    rw [if_pos hst]
    dsimp only
    rw [if_pos hrange]
  · intro hst
    unfold handleInitiateClusterMsg
    rw [if_neg hst]
  · unfold nclUpdate
    split <;> rfl
  · unfold nclUpdate
    split <;> rfl
  · unfold nclUpdate
    split <;> rfl
  · unfold nclUpdate
    split <;> rfl

theorem outOfRange_beacon_effect_witness :
    handleClusterInfo baseConsts 0 c6Info baseState = baseState :=
  (outOfRange_beacon_effect baseConsts 0 2 c6Info baseState
    (by rw [c6_range_eq]; unfold baseConsts; norm_num)).1

/-! ### C3: inbound InterNodePropagation -/

/-- The horizontal coordinate of the offset in the frame of the direction
vector, as the dx local of IsInSector. -/
noncomputable def sectorDx (source destination direction : Vec3) : ℝ :=
  (direction.x * (destination.x - source.x) + direction.y * (destination.y - source.y)) /
    (direction.x * direction.x + direction.y * direction.y)

/-- The vertical coordinate of the offset in the frame of the direction
vector, as the dy local of IsInSector. -/
noncomputable def sectorDy (source destination direction : Vec3) : ℝ :=
  (-direction.y * (destination.x - source.x) + direction.x * (destination.y - source.y)) /
    (direction.x * direction.x + direction.y * direction.y)

/-- The sector test of the source is the cone between the two rays rotated
by plus and minus theta / 2 from the direction axis — the half angle of
the sector is PROPAGATION_THETA / 2, not PROPAGATION_THETA — intersected
with the disc of the given radius (stated for sin theta positive, the
branch the source takes for the configured angles). -/
theorem isInSector_iff_halfAngle (source destination direction : Vec3) (radius theta : ℝ)
    (hsin : 0 < Real.sin theta) :
    isInSector source destination direction radius theta ↔
      ((destination.x - source.x) * (destination.x - source.x) +
          (destination.y - source.y) * (destination.y - source.y) ≤ radius * radius ∧
        0 ≤ Real.cos (theta / 2) * sectorDy source destination direction +
          Real.sin (theta / 2) * sectorDx source destination direction ∧
        Real.cos (theta / 2) * sectorDy source destination direction -
          Real.sin (theta / 2) * sectorDx source destination direction ≤ 0) := by
  have ht : 2 * (theta / 2) = theta := by ring
  have h2 : Real.sin theta = 2 * Real.sin (theta / 2) * Real.cos (theta / 2) := by
    rw [← ht, Real.sin_two_mul]
    rw [ht]
  have h3 : 0 < 2 * Real.sin (theta / 2) * Real.cos (theta / 2) := h2 ▸ hsin
  unfold isInSector sectorDx sectorDy
  dsimp only
  rw [neg_div, Real.cos_neg, Real.sin_neg]
  rw [if_pos (show Real.cos (theta / 2) * Real.sin (theta / 2) -
      Real.cos (theta / 2) * -Real.sin (theta / 2) > 0 from by nlinarith [h3])]
  rw [not_lt, not_lt, not_lt]
  constructor
  · rintro ⟨h1, hl, hr⟩
    refine ⟨h1, ?_, ?_⟩ <;> linarith
  · rintro ⟨h1, hl, hr⟩
    refine ⟨h1, ?_, ?_⟩ <;> linarith

/-- The receiver state after the alternate direction branch of the
InterNodePropagation handler: when the own direction is zero it is set to
the incoming speed times the normalized sum of the normalized incoming
direction and the normalized offset from the sender, fanning the wave out
toward the receiver. -/
noncomputable def interNodeFanState (info : InterNodePropagationInfo) (s : NodeState) :
    NodeState :=
  if s.propagationDirection.x = 0 ∧ s.propagationDirection.y = 0 then
    let speed := Real.sqrt (info.direction.x * info.direction.x +
      info.direction.y * info.direction.y)
    let comeX := info.direction.x / speed
    let comeY := info.direction.y / speed
    let deltaX := s.mob.position.x - info.position.x
    let deltaY := s.mob.position.y - info.position.y
    let deltaAbs := Real.sqrt (deltaX * deltaX + deltaY * deltaY)
    let outX := comeX + deltaX / deltaAbs
    let outY := comeY + deltaY / deltaAbs
    let outAbs := Real.sqrt (outX * outX + outY * outY)
    { s with propagationDirection :=
        ⟨speed * outX / outAbs, speed * outY / outAbs, s.propagationDirection.z⟩ }
  else s

/-- The speed of the receiver direction used as the wave velocity by the
InterNodePropagation handler. -/
noncomputable def interNodeVelocity (s : NodeState) : ℝ :=
  Real.sqrt (s.propagationDirection.x * s.propagationDirection.x +
    s.propagationDirection.y * s.propagationDirection.y)

/-- The candidate start time of the InterNodePropagation handler: the
announced starting time plus the sender receiver distance divided by the
speed of the receiver direction after the alternate direction branch. -/
noncomputable def interNodeNewTime (info : InterNodePropagationInfo) (s : NodeState) : ℝ :=
  info.startingTime + calculateDistance info.position (interNodeFanState info s).mob.position /
    interNodeVelocity (interNodeFanState info s)

/-- The InterNodePropagation handler written with the named abbreviations;
the two sides unfold to the same term. -/
theorem handleInterNodePropagation_def_eq (C : Consts) (now : ℝ)
    (info : InterNodePropagationInfo) (s : NodeState) :
    handleInterNodePropagation C now info s =
      (if isInSector info.position s.mob.position info.direction C.bfRange
          C.propagationTheta then
        if interNodeNewTime info s < (interNodeFanState info s).propagationStartTime ∧
            now < (interNodeFanState info s).propagationStartTime then
          scheduleInterNodePropagation C.reversePropagation now
            { interNodeFanState info s with propagationStartTime := interNodeNewTime info s }
        else (interNodeFanState info s, none)
      else (s, none)) := rfl

/-- C3 amended: an InterNodePropagation frame is accepted iff the receiver
position lies in the sector of radius BF_RANGE and half angle
PROPAGATION_THETA / 2 around the announced direction at the announced
position; on acceptance, a receiver whose own direction is zero first sets
it fanned out toward itself (regardless of the later comparison); the
candidate time is startingTime plus distance over the speed of the
receiver direction after that step; and the node adopts the candidate time
and re-schedules exactly when newStart < propagationStartTime and
now < propagationStartTime. -/
theorem handleInterNodePropagation_spec (C : Consts) (now : ℝ)
    (info : InterNodePropagationInfo) (s : NodeState) :
    (¬ isInSector info.position s.mob.position info.direction C.bfRange C.propagationTheta →
      handleInterNodePropagation C now info s = (s, none)) ∧
    (0 < Real.sin C.propagationTheta →
      (isInSector info.position s.mob.position info.direction C.bfRange C.propagationTheta ↔
        ((s.mob.position.x - info.position.x) * (s.mob.position.x - info.position.x) +
            (s.mob.position.y - info.position.y) * (s.mob.position.y - info.position.y) ≤
          C.bfRange * C.bfRange ∧
        0 ≤ Real.cos (C.propagationTheta / 2) *
            sectorDy info.position s.mob.position info.direction +
          Real.sin (C.propagationTheta / 2) *
            sectorDx info.position s.mob.position info.direction ∧
        Real.cos (C.propagationTheta / 2) *
            sectorDy info.position s.mob.position info.direction -
          Real.sin (C.propagationTheta / 2) *
            sectorDx info.position s.mob.position info.direction ≤ 0))) ∧
    (isInSector info.position s.mob.position info.direction C.bfRange C.propagationTheta →
      (interNodeNewTime info s < (interNodeFanState info s).propagationStartTime ∧
          now < (interNodeFanState info s).propagationStartTime →
        handleInterNodePropagation C now info s =
          scheduleInterNodePropagation C.reversePropagation now
            { interNodeFanState info s with
                propagationStartTime := interNodeNewTime info s }) ∧
      (¬ (interNodeNewTime info s < (interNodeFanState info s).propagationStartTime ∧
          now < (interNodeFanState info s).propagationStartTime) →
        handleInterNodePropagation C now info s = (interNodeFanState info s, none))) ∧
    (¬ (s.propagationDirection.x = 0 ∧ s.propagationDirection.y = 0) →
      interNodeFanState info s = s) := by
  refine ⟨?_, ?_, ?_, ?_⟩
  · intro h
    rw [handleInterNodePropagation_def_eq, if_neg h]
  · intro hsin
    exact isInSector_iff_halfAngle info.position s.mob.position info.direction
      C.bfRange C.propagationTheta hsin
  · intro hsec
    refine ⟨?_, ?_⟩
    · intro hc
      rw [handleInterNodePropagation_def_eq, if_pos hsec, if_pos hc]
    · intro hc
      rw [handleInterNodePropagation_def_eq, if_pos hsec, if_neg hc]
  · intro h
    unfold interNodeFanState
    rw [if_neg h]

def c3FarState : NodeState :=
  { baseState with mob := { baseInfo with position := ⟨200, 0, 0⟩ } }

def c3Info : InterNodePropagationInfo :=
  { startingTime := 10, position := baseVec, direction := ⟨5, 0, 0⟩ }

theorem handleInterNodePropagation_spec_witness :
    handleInterNodePropagation baseConsts 0 c3Info c3FarState = (c3FarState, none) :=
  (handleInterNodePropagation_spec baseConsts 0 c3Info c3FarState).1 (by
    unfold isInSector
    dsimp only
    intro h
    exact h.1 (by norm_num [c3FarState, c3Info, baseConsts, baseState, baseInfo, baseVec]))

def c3NearState : NodeState :=
  { baseState with mob := { baseInfo with position := ⟨4, 0, 0⟩ }, propagationStartTime := 5 }

theorem c3_sector : isInSector c3Info.position c3NearState.mob.position c3Info.direction
    baseConsts.bfRange baseConsts.propagationTheta := by
  unfold isInSector c3Info c3NearState baseConsts baseState baseInfo baseVec
  dsimp only
  rw [neg_div, Real.cos_neg, Real.sin_neg, Real.cos_pi_div_two, Real.sin_pi_div_two]
  refine ⟨by norm_num, ?_⟩
  rw [if_neg (by norm_num)]
  norm_num

/-- C3 counterexample: with the receiver inside the sector, own direction
zero, and candidate time 10 + 4/5 not earlier than the recorded start 5,
the handler still installs a new propagation direction although the
adoption condition fails, so the direction setting is not tied to the
adoption test as the claim states. -/
theorem handleInterNodePropagation_sets_direction_without_adoption :
    isInSector c3Info.position c3NearState.mob.position c3Info.direction
      baseConsts.bfRange baseConsts.propagationTheta ∧
    (handleInterNodePropagation baseConsts 0 c3Info c3NearState).1.propagationDirection ≠
      c3NearState.propagationDirection ∧
    (handleInterNodePropagation baseConsts 0 c3Info c3NearState).1.propagationStartTime =
      c3NearState.propagationStartTime ∧
    (handleInterNodePropagation baseConsts 0 c3Info c3NearState).2 = none := by
  have hzero : c3NearState.propagationDirection.x = 0 ∧
      c3NearState.propagationDirection.y = 0 := ⟨rfl, rfl⟩
  have h25 : Real.sqrt 25 = 5 := by
    rw [show (25 : ℝ) = 5 ^ 2 by norm_num]
    exact Real.sqrt_sq (by norm_num)
  have h16 : Real.sqrt 16 = 4 := by
    rw [show (16 : ℝ) = 4 ^ 2 by norm_num]
    exact Real.sqrt_sq (by norm_num)
  have h4 : Real.sqrt 4 = 2 := by
    rw [show (4 : ℝ) = 2 ^ 2 by norm_num]
    exact Real.sqrt_sq (by norm_num)
  have hfandir : (interNodeFanState c3Info c3NearState).propagationDirection = ⟨5, 0, 0⟩ := by
    unfold interNodeFanState
    rw [if_pos hzero]
    dsimp only
    norm_num [c3Info, c3NearState, baseState, baseInfo, baseVec, h25, h16, h4, Vec3.mk.injEq]
  have hfanmob : (interNodeFanState c3Info c3NearState).mob = c3NearState.mob := by
    unfold interNodeFanState
    rw [if_pos hzero]
  have hfanstart : (interNodeFanState c3Info c3NearState).propagationStartTime = 5 := by
    unfold interNodeFanState
    rw [if_pos hzero]
    dsimp only
    rfl
  have hvel : interNodeVelocity (interNodeFanState c3Info c3NearState) = 5 := by
    unfold interNodeVelocity
    rw [hfandir]
    dsimp only
    rw [show (5 * 5 + 0 * 0 : ℝ) = 25 by norm_num, h25]
  have hdist : calculateDistance c3Info.position
      (interNodeFanState c3Info c3NearState).mob.position = 4 := by
    rw [hfanmob]
    unfold calculateDistance
    norm_num [c3Info, c3NearState, baseState, baseInfo, baseVec, h16]
  have hnew : interNodeNewTime c3Info c3NearState = 10 + 4 / 5 := by
    unfold interNodeNewTime
    rw [hdist, hvel]
    norm_num [c3Info]
  have hnot : ¬ (interNodeNewTime c3Info c3NearState <
      (interNodeFanState c3Info c3NearState).propagationStartTime ∧
      (0 : ℝ) < (interNodeFanState c3Info c3NearState).propagationStartTime) := by
    rw [hnew, hfanstart]
    norm_num
  have hres : handleInterNodePropagation baseConsts 0 c3Info c3NearState =
      (interNodeFanState c3Info c3NearState, none) := by
    rw [handleInterNodePropagation_def_eq, if_pos c3_sector, if_neg hnot]
  refine ⟨c3_sector, ?_, ?_, ?_⟩
  · rw [hres]
    dsimp only
    rw [hfandir]
    intro hEq
    have hx := congrArg Vec3.x hEq
    norm_num [c3NearState, baseState, baseVec] at hx
  · rw [hres]
    dsimp only
    rw [hfanstart]
    norm_num [c3NearState]
  · rw [hres]

/-! ### C4: direction solver cell selection -/

/-- World frame position of a density cell as a vector. -/
noncomputable def cellVec (C : Consts) (basePos : Vec3) (idx : ℕ) : Vec3 :=
  ⟨cellPosX C basePos idx, cellPosY C basePos idx, 0⟩

/-- Distance from the starting position to a cell, as the distance local of
the candidate loop. -/
noncomputable def cellDist (C : Consts) (p0 basePos : Vec3) (idx : ℕ) : ℝ :=
  Real.sqrt ((cellPosX C basePos idx - p0.x) * (cellPosX C basePos idx - p0.x) +
    (cellPosY C basePos idx - p0.y) * (cellPosY C basePos idx - p0.y))

/-- Outgoing vector emitted for a cell, as the candidate_outcome local of
the candidate loop. -/
noncomputable def cellOutcome (C : Consts) (p0 : Vec3) (iv : ℝ) (basePos : Vec3)
    (idx : ℕ) : Vec3 :=
  ⟨iv * (cellPosX C basePos idx - p0.x) / cellDist C p0 basePos idx,
    iv * (cellPosY C basePos idx - p0.y) / cellDist C p0 basePos idx, 0⟩

/-- A qualifying cell: value above 1.0 and inside the sector of radius 100
around the incoming direction. -/
noncomputable def GoodCell (C : Consts) (p0 vin basePos : Vec3) (idx : ℕ) (value : ℝ) :
    Prop :=
  value > 1.0 ∧ isInSector p0 (cellVec C basePos idx) vin 100.0 C.propagationTheta

/-- One unfolding of the candidate cell loop, written with the named cell
abbreviations; both sides unfold to the same term. -/
theorem solveCells_cons_eq (C : Consts) (p0 vin : Vec3) (iv : ℝ) (basePos : Vec3)
    (i0 : ℕ) (v : ℝ) (rest : List ℝ) (acc : Option (ℝ × Vec3 × Vec3)) :
    solveCells C p0 vin iv basePos i0 (v :: rest) acc =
      solveCells C p0 vin iv basePos (i0 + 1) rest
        (if v > 1.0 then
          if isInSector p0 (cellVec C basePos i0) vin 100.0 C.propagationTheta then
            match acc with
            | none => some (cellDist C p0 basePos i0, cellVec C basePos i0,
                cellOutcome C p0 iv basePos i0)
            | some (candidateDistance, p, o) =>
              if candidateDistance > cellDist C p0 basePos i0 then
                some (cellDist C p0 basePos i0, cellVec C basePos i0,
                  cellOutcome C p0 iv basePos i0)
              else some (candidateDistance, p, o)
          else acc
        else acc) := rfl

theorem solveCells_aux (C : Consts) (p0 vin : Vec3) (iv : ℝ) (basePos : Vec3) :
    ∀ (cells : List ℝ) (i0 : ℕ) (acc : Option (ℝ × Vec3 × Vec3)),
    (solveCells C p0 vin iv basePos i0 cells acc = acc ∨
      ∃ p ∈ cells.enumFrom i0, GoodCell C p0 vin basePos p.1 p.2 ∧
        solveCells C p0 vin iv basePos i0 cells acc =
          some (cellDist C p0 basePos p.1, cellVec C basePos p.1,
            cellOutcome C p0 iv basePos p.1)) ∧
    (∀ d q o, acc = some (d, q, o) →
      ∃ d' q' o', solveCells C p0 vin iv basePos i0 cells acc = some (d', q', o') ∧
        d' ≤ d) ∧
    (∀ p ∈ cells.enumFrom i0, GoodCell C p0 vin basePos p.1 p.2 →
      ∃ d q o, solveCells C p0 vin iv basePos i0 cells acc = some (d, q, o) ∧
        d ≤ cellDist C p0 basePos p.1) := by
  intro cells
  induction cells with
  | nil =>
    intro i0 acc
    refine ⟨Or.inl rfl, ?_, ?_⟩
    · intro d q o h
      exact ⟨d, q, o, h, le_refl d⟩
    · intro p hp _
      cases hp
  | cons v rest ih =>
    intro i0 acc
    rw [solveCells_cons_eq]
    rw [show (v :: rest).enumFrom i0 = (i0, v) :: rest.enumFrom (i0 + 1) from rfl]
    by_cases hv : v > 1.0
    · rw [if_pos hv]
      by_cases hsec : isInSector p0 (cellVec C basePos i0) vin 100.0 C.propagationTheta
      · rw [if_pos hsec]
        cases acc with
        | none =>
          dsimp only
          rcases ih (i0 + 1) (some (cellDist C p0 basePos i0, cellVec C basePos i0,
            cellOutcome C p0 iv basePos i0)) with ⟨ih1, ih2, ih3⟩
          have hsome := ih2 (cellDist C p0 basePos i0) (cellVec C basePos i0)
            (cellOutcome C p0 iv basePos i0) rfl
          refine ⟨?_, ?_, ?_⟩
          · rcases ih1 with he | ⟨p, hp, hg, he⟩
            · exact Or.inr ⟨(i0, v), List.mem_cons_self _ _, ⟨hv, hsec⟩, he⟩
            · exact Or.inr ⟨p, List.mem_cons_of_mem _ hp, hg, he⟩
          · intro d q o h
            cases h
          · intro p hp hg
            rcases List.mem_cons.mp hp with he | hm
            · rcases hsome with ⟨d', q', o', hres, hle⟩
              subst he
              exact ⟨d', q', o', hres, hle⟩
            · exact ih3 p hm hg
        | some val =>
          rcases val with ⟨cd, cp, co⟩
          dsimp only
          by_cases hcd : cd > cellDist C p0 basePos i0
          · rw [if_pos hcd]
            rcases ih (i0 + 1) (some (cellDist C p0 basePos i0, cellVec C basePos i0,
              cellOutcome C p0 iv basePos i0)) with ⟨ih1, ih2, ih3⟩
            have hsome := ih2 (cellDist C p0 basePos i0) (cellVec C basePos i0)
              (cellOutcome C p0 iv basePos i0) rfl
            refine ⟨?_, ?_, ?_⟩
            · rcases ih1 with he | ⟨p, hp, hg, he⟩
              · exact Or.inr ⟨(i0, v), List.mem_cons_self _ _, ⟨hv, hsec⟩, he⟩
              · exact Or.inr ⟨p, List.mem_cons_of_mem _ hp, hg, he⟩
            · intro d q o h
              rcases hsome with ⟨d', q', o', hres, hle⟩
              injection h with h1
              injection h1 with hd h2
              exact ⟨d', q', o', hres, le_trans hle (le_of_lt (hd ▸ hcd))⟩
            · intro p hp hg
              rcases List.mem_cons.mp hp with he | hm
              · rcases hsome with ⟨d', q', o', hres, hle⟩
                subst he
                exact ⟨d', q', o', hres, hle⟩
              · exact ih3 p hm hg
          · rw [if_neg hcd]
            rcases ih (i0 + 1) (some (cd, cp, co)) with ⟨ih1, ih2, ih3⟩
            have hsome := ih2 cd cp co rfl
            refine ⟨?_, ?_, ?_⟩
            · rcases ih1 with he | ⟨p, hp, hg, he⟩
              · exact Or.inl he
              · exact Or.inr ⟨p, List.mem_cons_of_mem _ hp, hg, he⟩
            · intro d q o h
              injection h with h1
              injection h1 with hd h2
              injection h2 with hq ho
              subst hd
              subst hq
              subst ho
              exact hsome
            · intro p hp hg
              rcases List.mem_cons.mp hp with he | hm
              · rcases hsome with ⟨d', q', o', hres, hle⟩
                subst he
                exact ⟨d', q', o', hres, le_trans hle (not_lt.mp hcd)⟩
              · exact ih3 p hm hg
      · rw [if_neg hsec]
        rcases ih (i0 + 1) acc with ⟨ih1, ih2, ih3⟩
        refine ⟨?_, ih2, ?_⟩
        · rcases ih1 with he | ⟨p, hp, hg, he⟩
          · exact Or.inl he
          · exact Or.inr ⟨p, List.mem_cons_of_mem _ hp, hg, he⟩
        · intro p hp hg
          rcases List.mem_cons.mp hp with he | hm
          · exact absurd (he ▸ hg).2 hsec
          · exact ih3 p hm hg
    · rw [if_neg hv]
      rcases ih (i0 + 1) acc with ⟨ih1, ih2, ih3⟩
      refine ⟨?_, ih2, ?_⟩
      · rcases ih1 with he | ⟨p, hp, hg, he⟩
        · exact Or.inl he
        · exact Or.inr ⟨p, List.mem_cons_of_mem _ hp, hg, he⟩
      · intro p hp hg
        rcases List.mem_cons.mp hp with he | hm
        · exact absurd (he ▸ hg).1 hv
        · exact ih3 p hm hg

/-- C4: the candidate loop of the direction solver considers exactly the
cells with value above 1.0, reconstructs their world positions as the CH
position plus (scale * (j - size/2), scale * (i - size/2)) for j the
column and i the row of the cell index, keeps among the cells passing the
sector test of radius 100 around the incoming vector the one nearest the
starting position, and emits for it the outgoing vector of the incoming
speed directed from the starting position to the cell. -/
theorem solveCells_spec (C : Consts) (p0 vin : Vec3) (iv : ℝ) (basePos : Vec3)
    (cells : List ℝ) (hsz : 0 < C.distroMapSize) (hiv : 0 ≤ iv) :
    (∀ idx : ℕ, cellVec C basePos idx =
      ⟨basePos.x + C.distroMapScale *
          (((idx % C.distroMapSize : ℕ) : ℝ) - ((C.distroMapSize / 2 : ℕ) : ℝ)),
        basePos.y + C.distroMapScale *
          (((idx / C.distroMapSize : ℕ) : ℝ) - ((C.distroMapSize / 2 : ℕ) : ℝ)), 0⟩) ∧
    (solveCells C p0 vin iv basePos 0 cells none = none →
      ∀ p ∈ cells.enumFrom 0, ¬ GoodCell C p0 vin basePos p.1 p.2) ∧
    (∀ d q o, solveCells C p0 vin iv basePos 0 cells none = some (d, q, o) →
      (∃ p ∈ cells.enumFrom 0, GoodCell C p0 vin basePos p.1 p.2 ∧
        d = cellDist C p0 basePos p.1 ∧ q = cellVec C basePos p.1 ∧
        o = cellOutcome C p0 iv basePos p.1) ∧
      (∀ p ∈ cells.enumFrom 0, GoodCell C p0 vin basePos p.1 p.2 →
        d ≤ cellDist C p0 basePos p.1)) ∧
    (∀ idx : ℕ, 0 < cellDist C p0 basePos idx →
      Real.sqrt ((cellOutcome C p0 iv basePos idx).x * (cellOutcome C p0 iv basePos idx).x +
        (cellOutcome C p0 iv basePos idx).y * (cellOutcome C p0 iv basePos idx).y) = iv) := by
  refine ⟨?_, ?_, ?_, ?_⟩
  · intro idx
    have h1 : idx - idx % C.distroMapSize = C.distroMapSize * (idx / C.distroMapSize) := by
      have h := Nat.div_add_mod idx C.distroMapSize
      exact Nat.sub_eq_of_eq_add h.symm
    have hdiv : (idx - idx % C.distroMapSize) / C.distroMapSize = idx / C.distroMapSize := by
      rw [h1, Nat.mul_div_cancel_left _ hsz]
    unfold cellVec cellPosX cellPosY
    rw [Vec3.mk.injEq]
    refine ⟨by ring, ?_, rfl⟩
    rw [hdiv]
    ring
  · intro hnone p hp hg
    rcases (solveCells_aux C p0 vin iv basePos cells 0 none).2.2 p hp hg with
      ⟨d, q, o, hres, _⟩
    rw [hnone] at hres
    cases hres
  · intro d q o hres
    rcases solveCells_aux C p0 vin iv basePos cells 0 none with ⟨ih1, _, ih3⟩
    constructor
    · rcases ih1 with he | ⟨p, hp, hg, he⟩
      · rw [hres] at he
        cases he
      · rw [hres] at he
        injection he with h1
        injection h1 with hd h2
        injection h2 with hq ho
        exact ⟨p, hp, hg, hd, hq, ho⟩
    · intro p hp hg
      rcases ih3 p hp hg with ⟨d', q', o', hres', hle⟩
      rw [hres] at hres'
      injection hres' with h1
      injection h1 with hd _
      exact hd ▸ hle
  · intro idx hdist
    unfold cellOutcome
    dsimp only
    have hnn : (0 : ℝ) ≤ (cellPosX C basePos idx - p0.x) * (cellPosX C basePos idx - p0.x) +
        (cellPosY C basePos idx - p0.y) * (cellPosY C basePos idx - p0.y) :=
      add_nonneg (mul_self_nonneg _) (mul_self_nonneg _)
    have hd2 : cellDist C p0 basePos idx * cellDist C p0 basePos idx =
        (cellPosX C basePos idx - p0.x) * (cellPosX C basePos idx - p0.x) +
          (cellPosY C basePos idx - p0.y) * (cellPosY C basePos idx - p0.y) :=
      Real.mul_self_sqrt hnn
    have hne : cellDist C p0 basePos idx ≠ 0 := ne_of_gt hdist
    have hsq : iv * (cellPosX C basePos idx - p0.x) / cellDist C p0 basePos idx *
          (iv * (cellPosX C basePos idx - p0.x) / cellDist C p0 basePos idx) +
        iv * (cellPosY C basePos idx - p0.y) / cellDist C p0 basePos idx *
          (iv * (cellPosY C basePos idx - p0.y) / cellDist C p0 basePos idx) = iv ^ 2 := by
      field_simp
      rw [hd2]
      ring
    rw [hsq, Real.sqrt_sq hiv]

theorem solveCells_spec_witness :
    cellVec baseConsts baseVec 3 =
      ⟨baseVec.x + baseConsts.distroMapScale *
          (((3 % baseConsts.distroMapSize : ℕ) : ℝ) -
            ((baseConsts.distroMapSize / 2 : ℕ) : ℝ)),
        baseVec.y + baseConsts.distroMapScale *
          (((3 / baseConsts.distroMapSize : ℕ) : ℝ) -
            ((baseConsts.distroMapSize / 2 : ℕ) : ℝ)), 0⟩ :=
  (solveCells_spec baseConsts baseVec ⟨1, 0, 0⟩ 1 baseVec []
    (by norm_num [baseConsts]) (by norm_num)).1 3

/-! ### C8: neighbor list aging tick -/

theorem ne_of_not_containsKey {α : Type} {l : List (ℕ × α)} {k : ℕ}
    (h : ¬ containsKey l k = true) {kv : ℕ × α} (hm : kv ∈ l) : kv.1 ≠ k := by
  intro he
  apply h
  unfold containsKey
  rw [List.any_eq_true]
  exact ⟨kv, hm, by rw [he]; exact beq_self_eq_true k⟩

theorem unlStepTables_neighborList (k : ℕ) (v : NeighborInfo) (st : NodeState) :
    (unlStepTables k v st).neighborList = st.neighborList := by
  unfold unlStepTables
  dsimp only
  split_ifs <;> rfl

theorem unlStepTables_mob (k : ℕ) (v : NeighborInfo) (st : NodeState) :
    (unlStepTables k v st).mob = st.mob := by
  unfold unlStepTables
  dsimp only
  split_ifs <;> rfl

theorem unlStepTables_status (k : ℕ) (v : NeighborInfo) (st : NodeState) :
    (unlStepTables k v st).status = st.status := by
  unfold unlStepTables
  dsimp only
  split_ifs <;> rfl

theorem unlStepTables_clusterList_sub (k : ℕ) (v : NeighborInfo) (st : NodeState) :
    ∀ kv, kv ∈ (unlStepTables k v st).clusterList → kv ∈ st.clusterList := by
  unfold unlStepTables
  dsimp only
  split_ifs <;> intro kv h <;> first | exact h | exact (mem_eraseKey.mp h).1

theorem unlStepEvict_neighborList (k : ℕ) (v : NeighborInfo) (st : NodeState) :
    (unlStepEvict k v st).neighborList = eraseKey st.neighborList k := by
  unfold unlStepEvict
  dsimp only
  split_ifs <;> first | rfl | exact eraseKey_idem _ _

theorem unlStepEvict_mob (k : ℕ) (v : NeighborInfo) (st : NodeState) :
    (unlStepEvict k v st).mob =
      if v.imsi = st.mob.clusterId then
        { st.mob with clusterId := 0, degree := NodeDegree.standalone }
      else st.mob := by
  unfold unlStepEvict
  dsimp only
  split_ifs <;> rfl

theorem unlStepEvict_status (k : ℕ) (v : NeighborInfo) (st : NodeState) :
    (unlStepEvict k v st).status =
      if v.imsi = st.mob.clusterId then NodeStatus.clusterStart else st.status := by
  unfold unlStepEvict
  dsimp only
  split_ifs <;> rfl

theorem unlStepEvict_mob_imsi (k : ℕ) (v : NeighborInfo) (st : NodeState) :
    (unlStepEvict k v st).mob.imsi = st.mob.imsi := by
  rw [unlStepEvict_mob]
  split_ifs <;> rfl

theorem unlStepEvict_clusterList_mem (k : ℕ) (v : NeighborInfo) (st : NodeState)
    (kv : ℕ × NeighborInfo) :
    kv ∈ (unlStepEvict k v st).clusterList ↔ kv ∈ st.clusterList ∧ kv.1 ≠ k := by
  unfold unlStepEvict
  dsimp only
  split_ifs
  all_goals first
    | exact mem_eraseKey
    | (rename_i hnc
       constructor
       · intro hm
         exact ⟨hm, ne_of_not_containsKey hnc hm⟩
       · exact And.left)

theorem unlStep_neighborList_old (now interval : ℝ) (k : ℕ) (v : NeighborInfo) (acc : UnlAcc)
    (h : now - v.ts > 2.0 * interval) :
    (unlStep now interval k v acc).s.neighborList = eraseKey acc.s.neighborList k := by
  unfold unlStep
  dsimp only
  rw [if_pos h]
  split <;> (dsimp only; rw [unlStepEvict_neighborList, unlStepTables_neighborList])

theorem unlStep_neighborList_fresh (now interval : ℝ) (k : ℕ) (v : NeighborInfo) (acc : UnlAcc)
    (h : ¬ (now - v.ts > 2.0 * interval)) :
    (unlStep now interval k v acc).s.neighborList = acc.s.neighborList := by
  unfold unlStep
  dsimp only
  rw [if_neg h]
  exact unlStepTables_neighborList k v acc.s

theorem unlStep_mob_fresh (now interval : ℝ) (k : ℕ) (v : NeighborInfo) (acc : UnlAcc)
    (h : ¬ (now - v.ts > 2.0 * interval)) :
    (unlStep now interval k v acc).s.mob = acc.s.mob := by
  unfold unlStep
  dsimp only
  rw [if_neg h]
  exact unlStepTables_mob k v acc.s

theorem unlStep_clusterList_old (now interval : ℝ) (k : ℕ) (v : NeighborInfo) (acc : UnlAcc)
    (h : now - v.ts > 2.0 * interval) (kv : ℕ × NeighborInfo) :
    kv ∈ (unlStep now interval k v acc).s.clusterList →
      kv ∈ acc.s.clusterList ∧ kv.1 ≠ k := by
  unfold unlStep
  dsimp only
  rw [if_pos h]
  split
  all_goals
    intro hm
    have hm2 := (unlStepEvict_clusterList_mem k v (unlStepTables k v acc.s) kv).mp hm
    exact ⟨unlStepTables_clusterList_sub k v acc.s kv hm2.1, hm2.2⟩

theorem unlStep_clusterList_fresh (now interval : ℝ) (k : ℕ) (v : NeighborInfo) (acc : UnlAcc)
    (h : ¬ (now - v.ts > 2.0 * interval)) (kv : ℕ × NeighborInfo) :
    kv ∈ (unlStep now interval k v acc).s.clusterList → kv ∈ acc.s.clusterList := by
  unfold unlStep
  dsimp only
  rw [if_neg h]
  exact unlStepTables_clusterList_sub k v acc.s kv

theorem unlStep_mob_imsi (now interval : ℝ) (k : ℕ) (v : NeighborInfo) (acc : UnlAcc) :
    (unlStep now interval k v acc).s.mob.imsi = acc.s.mob.imsi := by
  unfold unlStep
  dsimp only
  split_ifs <;> simp only [NeighborInfo.asCH, unlStepEvict_mob_imsi, unlStepTables_mob]

theorem unlStep_status_or (now interval : ℝ) (k : ℕ) (v : NeighborInfo) (acc : UnlAcc) :
    (unlStep now interval k v acc).s.status = acc.s.status ∨
      (unlStep now interval k v acc).s.status = NodeStatus.clusterStart := by
  have h6 := unlStepEvict_status k v (unlStepTables k v acc.s)
  rw [unlStepTables_status] at h6
  unfold unlStep
  dsimp only
  split_ifs
  · dsimp only
    rw [h6]
    split_ifs
    · exact Or.inr rfl
    · exact Or.inl rfl
  · dsimp only
    rw [h6]
    split_ifs
    · exact Or.inr rfl
    · exact Or.inl rfl
  · dsimp only
    rw [unlStepTables_status]
    exact Or.inl rfl

theorem unlStep_beacon_mono (now interval : ℝ) (k : ℕ) (v : NeighborInfo) (acc : UnlAcc)
    (h : acc.beacon = true) : (unlStep now interval k v acc).beacon = true := by
  unfold unlStep
  dsimp only
  split_ifs <;> first | rfl | exact h

theorem unlStep_degInv (now interval : ℝ) (k : ℕ) (v : NeighborInfo) (acc : UnlAcc)
    (h : DegInv acc.s) : DegInv (unlStep now interval k v acc).s := by
  have hnl := unlStepEvict_neighborList k v (unlStepTables k v acc.s)
  rw [unlStepTables_neighborList] at hnl
  have hmob := unlStepEvict_mob k v (unlStepTables k v acc.s)
  rw [unlStepTables_mob] at hmob
  unfold DegInv at h ⊢
  unfold unlStep
  dsimp only
  split_ifs with h1 h2
  · refine Or.inr ⟨?_, ?_⟩
    · show ((unlStepEvict k v (unlStepTables k v acc.s)).mob.asCH).degree = NodeDegree.ch
      rfl
    · exact List.length_eq_zero.mp h2.1
  · rcases h with hsa | ⟨hch, hnil⟩
    · refine Or.inl ?_
      show (unlStepEvict k v (unlStepTables k v acc.s)).mob.degree = NodeDegree.standalone
      rw [hmob]
      split_ifs
      · rfl
      · exact hsa
    · by_cases hd : v.imsi = acc.s.mob.clusterId
      · refine Or.inl ?_
        show (unlStepEvict k v (unlStepTables k v acc.s)).mob.degree = NodeDegree.standalone
        rw [hmob, if_pos hd]
      · refine Or.inr ⟨?_, ?_⟩
        · show (unlStepEvict k v (unlStepTables k v acc.s)).mob.degree = NodeDegree.ch
          rw [hmob, if_neg hd]
          exact hch
        · show (unlStepEvict k v (unlStepTables k v acc.s)).neighborList = []
          rw [hnl, hnil]
          rfl
  · rcases h with hsa | ⟨hch, hnil⟩
    · refine Or.inl ?_
      show (unlStepTables k v acc.s).mob.degree = NodeDegree.standalone
      rw [unlStepTables_mob]
      exact hsa
    · refine Or.inr ⟨?_, ?_⟩
      · show (unlStepTables k v acc.s).mob.degree = NodeDegree.ch
        rw [unlStepTables_mob]
        exact hch
      · show (unlStepTables k v acc.s).neighborList = []
        rw [unlStepTables_neighborList]
        exact hnil

theorem unlStep_loss (now interval : ℝ) (k : ℕ) (v : NeighborInfo) (acc : UnlAcc)
    (hold : now - v.ts > 2.0 * interval) (hmatch : v.imsi = acc.s.mob.clusterId) :
    (unlStep now interval k v acc).s.status = NodeStatus.clusterStart ∧
      DegInv (unlStep now interval k v acc).s := by
  have h6s := unlStepEvict_status k v (unlStepTables k v acc.s)
  rw [unlStepTables_status, unlStepTables_mob] at h6s
  have h6m := unlStepEvict_mob k v (unlStepTables k v acc.s)
  rw [unlStepTables_mob] at h6m
  unfold DegInv
  unfold unlStep
  dsimp only
  rw [if_pos hold]
  split_ifs with hp
  · refine ⟨?_, Or.inr ⟨?_, ?_⟩⟩
    · show (unlStepEvict k v (unlStepTables k v acc.s)).status = NodeStatus.clusterStart
      rw [h6s, if_pos hmatch]
    · show ((unlStepEvict k v (unlStepTables k v acc.s)).mob.asCH).degree = NodeDegree.ch
      rfl
    · exact List.length_eq_zero.mp hp.1
  · refine ⟨?_, Or.inl ?_⟩
    · show (unlStepEvict k v (unlStepTables k v acc.s)).status = NodeStatus.clusterStart
      rw [h6s, if_pos hmatch]
    · show (unlStepEvict k v (unlStepTables k v acc.s)).mob.degree = NodeDegree.standalone
      rw [h6m, if_pos hmatch]

theorem unlStep_clusterId_preserved (now interval : ℝ) (k : ℕ) (v : NeighborInfo) (acc : UnlAcc)
    (hno : ¬ (now - v.ts > 2.0 * interval ∧ v.imsi = acc.s.mob.clusterId))
    (hsome : ∃ w ∈ acc.s.neighborList, w.1 ≠ k) :
    (unlStep now interval k v acc).s.mob.clusterId = acc.s.mob.clusterId := by
  have h6m := unlStepEvict_mob k v (unlStepTables k v acc.s)
  rw [unlStepTables_mob] at h6m
  have hnl := unlStepEvict_neighborList k v (unlStepTables k v acc.s)
  rw [unlStepTables_neighborList] at hnl
  unfold unlStep
  dsimp only
  split_ifs with hold hp
  · exfalso
    obtain ⟨w, hw, hwk⟩ := hsome
    have hmem : w ∈ (unlStepEvict k v (unlStepTables k v acc.s)).neighborList := by
      rw [hnl]
      exact mem_eraseKey.mpr ⟨hw, hwk⟩
    have hlen := hp.1
    rw [List.length_eq_zero] at hlen
    rw [hlen] at hmem
    exact absurd hmem (List.not_mem_nil w)
  · show (unlStepEvict k v (unlStepTables k v acc.s)).mob.clusterId = acc.s.mob.clusterId
    rw [h6m, if_neg (fun hm => hno ⟨hold, hm⟩)]
  · show (unlStepTables k v acc.s).mob.clusterId = acc.s.mob.clusterId
    rw [unlStepTables_mob]

theorem unlStep_promotes (now interval : ℝ) (k : ℕ) (v : NeighborInfo) (acc : UnlAcc)
    (hold : now - v.ts > 2.0 * interval)
    (hempty : eraseKey acc.s.neighborList k = [])
    (hdeg : acc.s.mob.degree ≠ NodeDegree.ch) :
    (unlStep now interval k v acc).s.mob.degree = NodeDegree.ch ∧
      (unlStep now interval k v acc).s.mob.clusterId = acc.s.mob.imsi ∧
      (unlStep now interval k v acc).beacon = true := by
  have h6m := unlStepEvict_mob k v (unlStepTables k v acc.s)
  rw [unlStepTables_mob] at h6m
  have hnl := unlStepEvict_neighborList k v (unlStepTables k v acc.s)
  rw [unlStepTables_neighborList] at hnl
  have hlen : (unlStepEvict k v (unlStepTables k v acc.s)).neighborList.length = 0 := by
    rw [hnl, hempty]
    rfl
  have hd6 : (unlStepEvict k v (unlStepTables k v acc.s)).mob.degree ≠ NodeDegree.ch := by
    rw [h6m]
    split_ifs
    · exact fun hc => NodeDegree.noConfusion hc
    · exact hdeg
  unfold unlStep
  dsimp only
  rw [if_pos hold, if_pos ⟨hlen, hd6⟩]
  refine ⟨rfl, ?_, rfl⟩
  show ((unlStepEvict k v (unlStepTables k v acc.s)).mob.asCH).clusterId = acc.s.mob.imsi
  have hach : ((unlStepEvict k v (unlStepTables k v acc.s)).mob.asCH).clusterId =
      (unlStepEvict k v (unlStepTables k v acc.s)).mob.imsi := rfl
  rw [hach, unlStepEvict_mob_imsi, unlStepTables_mob]

theorem unlStep_degree_nonpromote (now interval : ℝ) (k : ℕ) (v : NeighborInfo) (acc : UnlAcc)
    (hne : eraseKey acc.s.neighborList k ≠ []) :
    (unlStep now interval k v acc).s.mob.degree = NodeDegree.standalone ∨
      (unlStep now interval k v acc).s.mob.degree = acc.s.mob.degree := by
  have h6m := unlStepEvict_mob k v (unlStepTables k v acc.s)
  rw [unlStepTables_mob] at h6m
  have hnl := unlStepEvict_neighborList k v (unlStepTables k v acc.s)
  rw [unlStepTables_neighborList] at hnl
  unfold unlStep
  dsimp only
  split_ifs with hold hp
  · exfalso
    obtain ⟨hp1, _⟩ := hp
    rw [List.length_eq_zero, hnl] at hp1
    exact hne hp1
  · show (unlStepEvict k v (unlStepTables k v acc.s)).mob.degree = NodeDegree.standalone ∨
      (unlStepEvict k v (unlStepTables k v acc.s)).mob.degree = acc.s.mob.degree
    rw [h6m]
    split_ifs
    · exact Or.inl rfl
    · exact Or.inr rfl
  · show (unlStepTables k v acc.s).mob.degree = NodeDegree.standalone ∨
      (unlStepTables k v acc.s).mob.degree = acc.s.mob.degree
    rw [unlStepTables_mob]
    exact Or.inr rfl

theorem unlLoop_cons (now interval : ℝ) (hd : ℕ × NeighborInfo)
    (rest : List (ℕ × NeighborInfo)) (acc : UnlAcc) :
    unlLoop now interval (hd :: rest) acc =
      unlLoop now interval rest (unlStep now interval hd.1 hd.2 acc) := rfl

theorem unlLoop_status_start (now interval : ℝ) :
    ∀ (todo : List (ℕ × NeighborInfo)) (acc : UnlAcc),
      acc.s.status = NodeStatus.clusterStart →
      (unlLoop now interval todo acc).s.status = NodeStatus.clusterStart := by
  intro todo
  induction todo with
  | nil => intro acc h; exact h
  | cons hd rest ih =>
    intro acc h
    rw [unlLoop_cons]
    apply ih
    rcases unlStep_status_or now interval hd.1 hd.2 acc with h1 | h1
    · rw [h1]; exact h
    · exact h1

theorem unlLoop_degInv (now interval : ℝ) :
    ∀ (todo : List (ℕ × NeighborInfo)) (acc : UnlAcc),
      DegInv acc.s → DegInv (unlLoop now interval todo acc).s := by
  intro todo
  induction todo with
  | nil => intro acc h; exact h
  | cons hd rest ih =>
    intro acc h
    rw [unlLoop_cons]
    exact ih _ (unlStep_degInv now interval hd.1 hd.2 acc h)

theorem unlLoop_neighbor_fresh (now interval : ℝ) :
    ∀ (todo : List (ℕ × NeighborInfo)) (acc : UnlAcc),
      (∀ kv ∈ acc.s.neighborList, now - kv.2.ts ≤ 2.0 * interval ∨ kv ∈ todo) →
      ∀ kv ∈ (unlLoop now interval todo acc).s.neighborList,
        now - kv.2.ts ≤ 2.0 * interval := by
  intro todo
  induction todo with
  | nil =>
    intro acc hinv kv hm
    rcases hinv kv hm with h | h
    · exact h
    · exact absurd h (List.not_mem_nil kv)
  | cons hd rest ih =>
    intro acc hinv
    rw [unlLoop_cons]
    apply ih
    intro kv hm
    by_cases hold : now - hd.2.ts > 2.0 * interval
    · rw [unlStep_neighborList_old now interval hd.1 hd.2 acc hold] at hm
      obtain ⟨hm1, hm2⟩ := mem_eraseKey.mp hm
      rcases hinv kv hm1 with h | h
      · exact Or.inl h
      · rcases List.mem_cons.mp h with he | hr
        · exact absurd (congrArg Prod.fst he) hm2
        · exact Or.inr hr
    · rw [unlStep_neighborList_fresh now interval hd.1 hd.2 acc hold] at hm
      rcases hinv kv hm with h | h
      · exact Or.inl h
      · rcases List.mem_cons.mp h with he | hr
        · refine Or.inl ?_
          rw [he]
          exact le_of_not_lt hold
        · exact Or.inr hr

theorem unlLoop_cluster_fresh (now interval : ℝ) :
    ∀ (todo : List (ℕ × NeighborInfo)) (acc : UnlAcc),
      (todo.map Prod.fst).Nodup →
      (∀ kv ∈ acc.s.clusterList,
        now - kv.2.ts ≤ 2.0 * interval ∨ ∃ w, (kv.1, w) ∈ todo ∧ w.ts = kv.2.ts) →
      ∀ kv ∈ (unlLoop now interval todo acc).s.clusterList,
        now - kv.2.ts ≤ 2.0 * interval := by
  intro todo
  induction todo with
  | nil =>
    intro acc _ hinv kv hm
    rcases hinv kv hm with h | ⟨w, hw, _⟩
    · exact h
    · exact absurd hw (List.not_mem_nil _)
  | cons hd rest ih =>
    intro acc hnodup hinv
    have hnd : hd.1 ∉ rest.map Prod.fst ∧ (rest.map Prod.fst).Nodup := by
      rw [List.map_cons, List.nodup_cons] at hnodup
      exact hnodup
    rw [unlLoop_cons]
    apply ih _ hnd.2
    intro kv hm
    by_cases hold : now - hd.2.ts > 2.0 * interval
    · obtain ⟨hm1, hm2⟩ := unlStep_clusterList_old now interval hd.1 hd.2 acc hold kv hm
      rcases hinv kv hm1 with h | ⟨w, hw, hwts⟩
      · exact Or.inl h
      · rcases List.mem_cons.mp hw with he | hr
        · exact absurd (congrArg Prod.fst he) hm2
        · exact Or.inr ⟨w, hr, hwts⟩
    · have hm1 := unlStep_clusterList_fresh now interval hd.1 hd.2 acc hold kv hm
      rcases hinv kv hm1 with h | ⟨w, hw, hwts⟩
      · exact Or.inl h
      · rcases List.mem_cons.mp hw with he | hr
        · refine Or.inl ?_
          have hts : w = hd.2 := congrArg Prod.snd he
          rw [← hwts, hts]
          exact le_of_not_lt hold
        · exact Or.inr ⟨w, hr, hwts⟩

theorem unlLoop_loss (now interval : ℝ) :
    ∀ (todo : List (ℕ × NeighborInfo)) (acc : UnlAcc),
      (todo.map Prod.fst).Nodup →
      (∀ kv ∈ todo, kv ∈ acc.s.neighborList) →
      (∃ kv ∈ todo, now - kv.2.ts > 2.0 * interval ∧ kv.2.imsi = acc.s.mob.clusterId) →
      (unlLoop now interval todo acc).s.status = NodeStatus.clusterStart ∧
        DegInv (unlLoop now interval todo acc).s := by
  intro todo
  induction todo with
  | nil =>
    intro acc _ _ htr
    obtain ⟨t, ht, _⟩ := htr
    exact absurd ht (List.not_mem_nil t)
  | cons hd rest ih =>
    intro acc hnodup hmem htr
    rw [unlLoop_cons]
    by_cases hcase : now - hd.2.ts > 2.0 * interval ∧ hd.2.imsi = acc.s.mob.clusterId
    · have hstep := unlStep_loss now interval hd.1 hd.2 acc hcase.1 hcase.2
      exact ⟨unlLoop_status_start now interval rest _ hstep.1,
             unlLoop_degInv now interval rest _ hstep.2⟩
    · obtain ⟨t, ht, htold, htid⟩ := htr
      have htr' : t ∈ rest := by
        rcases List.mem_cons.mp ht with he | hr
        · subst he
          exact absurd ⟨htold, htid⟩ hcase
        · exact hr
      have hnd : hd.1 ∉ rest.map Prod.fst ∧ (rest.map Prod.fst).Nodup := by
        rw [List.map_cons, List.nodup_cons] at hnodup
        exact hnodup
      have htne : t.1 ≠ hd.1 := by
        intro he
        apply hnd.1
        rw [← he]
        exact List.mem_map_of_mem Prod.fst htr'
      have hsome : ∃ w ∈ acc.s.neighborList, w.1 ≠ hd.1 := ⟨t, hmem t ht, htne⟩
      have hcid := unlStep_clusterId_preserved now interval hd.1 hd.2 acc hcase hsome
      apply ih _ hnd.2
      · intro kv hkv
        have hacc : kv ∈ acc.s.neighborList := hmem kv (List.mem_cons_of_mem hd hkv)
        have hkne : kv.1 ≠ hd.1 := by
          intro he
          apply hnd.1
          rw [← he]
          exact List.mem_map_of_mem Prod.fst hkv
        by_cases hold : now - hd.2.ts > 2.0 * interval
        · rw [unlStep_neighborList_old now interval hd.1 hd.2 acc hold]
          exact mem_eraseKey.mpr ⟨hacc, hkne⟩
        · rw [unlStep_neighborList_fresh now interval hd.1 hd.2 acc hold]
          exact hacc
      · refine ⟨t, htr', htold, ?_⟩
        rw [hcid]
        exact htid

theorem unlLoop_promote (now interval : ℝ) :
    ∀ (todo : List (ℕ × NeighborInfo)) (acc : UnlAcc),
      (todo.map Prod.fst).Nodup →
      (∀ kv ∈ todo, kv ∈ acc.s.neighborList) →
      acc.s.mob.degree ≠ NodeDegree.ch →
      (unlLoop now interval todo acc).s.neighborList = [] →
      todo ≠ [] →
      (unlLoop now interval todo acc).s.mob.degree = NodeDegree.ch ∧
        (unlLoop now interval todo acc).s.mob.clusterId = acc.s.mob.imsi ∧
        (unlLoop now interval todo acc).beacon = true := by
  intro todo
  induction todo with
  | nil =>
    intro acc _ _ _ _ hne
    exact absurd rfl hne
  | cons hd rest ih =>
    intro acc hnodup hmem hdeg hempty _
    rw [unlLoop_cons] at hempty ⊢
    have hnd : hd.1 ∉ rest.map Prod.fst ∧ (rest.map Prod.fst).Nodup := by
      rw [List.map_cons, List.nodup_cons] at hnodup
      exact hnodup
    have hmemstep : ∀ kv ∈ rest, kv ∈ (unlStep now interval hd.1 hd.2 acc).s.neighborList := by
      intro kv hkv
      have hacc : kv ∈ acc.s.neighborList := hmem kv (List.mem_cons_of_mem hd hkv)
      have hkne : kv.1 ≠ hd.1 := by
        intro he
        apply hnd.1
        rw [← he]
        exact List.mem_map_of_mem Prod.fst hkv
      by_cases hold : now - hd.2.ts > 2.0 * interval
      · rw [unlStep_neighborList_old now interval hd.1 hd.2 acc hold]
        exact mem_eraseKey.mpr ⟨hacc, hkne⟩
      · rw [unlStep_neighborList_fresh now interval hd.1 hd.2 acc hold]
        exact hacc
    by_cases hold : now - hd.2.ts > 2.0 * interval
    · by_cases hemp : eraseKey acc.s.neighborList hd.1 = []
      · have hstep := unlStep_promotes now interval hd.1 hd.2 acc hold hemp hdeg
        have hrest : rest = [] := by
          cases rest with
          | nil => rfl
          | cons r rs =>
            exfalso
            have hmr := hmemstep r (List.mem_cons_self r rs)
            rw [unlStep_neighborList_old now interval hd.1 hd.2 acc hold, hemp] at hmr
            exact absurd hmr (List.not_mem_nil r)
        rw [hrest]
        exact hstep
      · have hdeg' : (unlStep now interval hd.1 hd.2 acc).s.mob.degree ≠ NodeDegree.ch := by
          rcases unlStep_degree_nonpromote now interval hd.1 hd.2 acc hemp with h | h
          · rw [h]
            exact fun hc => NodeDegree.noConfusion hc
          · rw [h]
            exact hdeg
        have hrest_ne : rest ≠ [] := by
          intro hre
          rw [hre] at hempty
          have h0 : (unlStep now interval hd.1 hd.2 acc).s.neighborList = [] := hempty
          rw [unlStep_neighborList_old now interval hd.1 hd.2 acc hold] at h0
          exact hemp h0
        have hres := ih (unlStep now interval hd.1 hd.2 acc) hnd.2 hmemstep hdeg' hempty hrest_ne
        refine ⟨hres.1, ?_, hres.2.2⟩
        rw [hres.2.1]
        exact unlStep_mob_imsi now interval hd.1 hd.2 acc
    · have hdeg' : (unlStep now interval hd.1 hd.2 acc).s.mob.degree ≠ NodeDegree.ch := by
        rw [unlStep_mob_fresh now interval hd.1 hd.2 acc hold]
        exact hdeg
      have hrest_ne : rest ≠ [] := by
        intro hre
        rw [hre] at hempty
        have h0 : (unlStep now interval hd.1 hd.2 acc).s.neighborList = [] := hempty
        rw [unlStep_neighborList_fresh now interval hd.1 hd.2 acc hold] at h0
        have hmh := hmem hd (List.mem_cons_self hd rest)
        rw [h0] at hmh
        exact absurd hmh (List.not_mem_nil hd)
      have hres := ih (unlStep now interval hd.1 hd.2 acc) hnd.2 hmemstep hdeg' hempty hrest_ne
      refine ⟨hres.1, ?_, hres.2.2⟩
      rw [hres.2.1, unlStep_mob_fresh now interval hd.1 hd.2 acc hold]

theorem updateNeighborList_fst_neighborList (now interval : ℝ) (s : NodeState) :
    (updateNeighborList now interval s).1.neighborList = (unlRes now interval s).s.neighborList := by
  unfold updateNeighborList unlRes
  dsimp only
  split_ifs <;> rfl

theorem updateNeighborList_fst_clusterList (now interval : ℝ) (s : NodeState) :
    (updateNeighborList now interval s).1.clusterList = (unlRes now interval s).s.clusterList := by
  unfold updateNeighborList unlRes
  dsimp only
  split_ifs <;> rfl

theorem updateNeighborList_fst_status (now interval : ℝ) (s : NodeState) :
    (updateNeighborList now interval s).1.status = (unlRes now interval s).s.status := by
  unfold updateNeighborList unlRes
  dsimp only
  split_ifs <;> rfl

theorem updateNeighborList_fst_ncl (now interval : ℝ) (s : NodeState) :
    (updateNeighborList now interval s).1.neighborClusterList =
      (unlRes now interval s).s.neighborClusterList.filter
        (fun kv => !decide (now - kv.2.ts > 2.0 * interval)) := by
  unfold updateNeighborList unlRes
  dsimp only
  split_ifs <;> rfl

theorem updateNeighborList_snd (now interval : ℝ) (s : NodeState) :
    (updateNeighborList now interval s).2 = (unlRes now interval s).beacon := by
  unfold updateNeighborList unlRes
  rfl

theorem updateNeighborList_fst_mob (now interval : ℝ) (s : NodeState)
    (h : (unlRes now interval s).s.mob.degree ≠ NodeDegree.cm) :
    (updateNeighborList now interval s).1.mob = (unlRes now interval s).s.mob := by
  unfold unlRes at h
  unfold updateNeighborList unlRes
  dsimp only
  rw [if_neg (fun hc => h hc.1)]

/-- C8: at a neighbor list update tick every table entry older than twice
the beacon interval is evicted: afterwards the NeighborList, the aged
NeighborClusterList and the ClusterList, whose entries mirror NeighborList
entries with the same timestamp, hold only entries with now - ts at most
2 * Interval.  If a stale entry was the node's own CH, the node returns to
CLUSTER_INITIALIZATION and ends the tick standalone unless the same tick
emptied its list and promoted it to CH of an empty neighborhood; and if the
NeighborList of a non-CH node drains to empty during the tick, the node
promotes itself to CH of its own cluster and an immediate beacon is
triggered. -/
theorem updateNeighborList_spec (now interval : ℝ) (s : NodeState)
    (hnodup : (s.neighborList.map Prod.fst).Nodup)
    (hsync : ∀ kv ∈ s.clusterList, ∃ w, (kv.1, w) ∈ s.neighborList ∧ w.ts = kv.2.ts) :
    (∀ kv ∈ (updateNeighborList now interval s).1.neighborList,
        now - kv.2.ts ≤ 2 * interval) ∧
    (∀ kv ∈ (updateNeighborList now interval s).1.neighborClusterList,
        now - kv.2.ts ≤ 2 * interval) ∧
    (∀ kv ∈ (updateNeighborList now interval s).1.clusterList,
        now - kv.2.ts ≤ 2 * interval) ∧
    ((∃ kv ∈ s.neighborList, now - kv.2.ts > 2 * interval ∧ kv.2.imsi = s.mob.clusterId) →
      (updateNeighborList now interval s).1.status = NodeStatus.clusterStart ∧
        ((updateNeighborList now interval s).1.mob.degree = NodeDegree.standalone ∨
          ((updateNeighborList now interval s).1.neighborList = [] ∧
            (updateNeighborList now interval s).1.mob.degree = NodeDegree.ch))) ∧
    ((s.mob.degree ≠ NodeDegree.ch ∧ s.neighborList ≠ [] ∧
        (updateNeighborList now interval s).1.neighborList = []) →
      (updateNeighborList now interval s).1.mob.degree = NodeDegree.ch ∧
        (updateNeighborList now interval s).1.mob.clusterId = s.mob.imsi ∧
        (updateNeighborList now interval s).2 = true) := by
  have h20 : (2.0 : ℝ) = 2 := by norm_num
  have hfresh1 : ∀ kv ∈ (unlRes now interval s).s.neighborList,
      now - kv.2.ts ≤ 2.0 * interval := by
    unfold unlRes
    exact unlLoop_neighbor_fresh now interval _ _ (fun kv hkv => Or.inr hkv)
  have hfresh3 : ∀ kv ∈ (unlRes now interval s).s.clusterList,
      now - kv.2.ts ≤ 2.0 * interval := by
    unfold unlRes
    refine unlLoop_cluster_fresh now interval _ _ hnodup ?_
    intro kv hkv
    obtain ⟨w, hw, hwts⟩ := hsync kv hkv
    exact Or.inr ⟨w, hw, hwts⟩
  refine ⟨?_, ?_, ?_, ?_, ?_⟩
  · intro kv hkv
    rw [updateNeighborList_fst_neighborList] at hkv
    have hf := hfresh1 kv hkv
    rw [h20] at hf
    exact hf
  · intro kv hkv
    rw [updateNeighborList_fst_ncl] at hkv
    obtain ⟨_, hf⟩ := List.mem_filter.mp hkv
    rw [Bool.not_eq_true'] at hf
    have hle := le_of_not_lt (of_decide_eq_false hf)
    rw [h20] at hle
    exact hle
  · intro kv hkv
    rw [updateNeighborList_fst_clusterList] at hkv
    have hf := hfresh3 kv hkv
    rw [h20] at hf
    exact hf
  · intro htr
    have htr2 : ∃ kv ∈ ({ s with mob := { s.mob with ts := now } } : NodeState).neighborList,
        now - kv.2.ts > 2.0 * interval ∧
          kv.2.imsi = (⟨{ s with mob := { s.mob with ts := now } }, false, false⟩ : UnlAcc).s.mob.clusterId := by
      obtain ⟨t, ht, hto, hti⟩ := htr
      rw [← h20] at hto
      exact ⟨t, ht, hto, hti⟩
    have hls := unlLoop_loss now interval
      ({ s with mob := { s.mob with ts := now } } : NodeState).neighborList
      ⟨{ s with mob := { s.mob with ts := now } }, false, false⟩
      hnodup (fun kv hkv => hkv) htr2
    have hst : (unlRes now interval s).s.status = NodeStatus.clusterStart := hls.1
    have hdi : DegInv (unlRes now interval s).s := hls.2
    unfold DegInv at hdi
    constructor
    · rw [updateNeighborList_fst_status]
      exact hst
    · rcases hdi with hsa | ⟨hch, hnil⟩
      · refine Or.inl ?_
        have hm := updateNeighborList_fst_mob now interval s
          (by rw [hsa]; exact fun hc => NodeDegree.noConfusion hc)
        rw [hm]
        exact hsa
      · refine Or.inr ⟨?_, ?_⟩
        · rw [updateNeighborList_fst_neighborList]
          exact hnil
        · have hm := updateNeighborList_fst_mob now interval s
            (by rw [hch]; exact fun hc => NodeDegree.noConfusion hc)
          rw [hm]
          exact hch
  · intro h5
    obtain ⟨hdch, hne, hemp⟩ := h5
    rw [updateNeighborList_fst_neighborList] at hemp
    have hpr := unlLoop_promote now interval
      ({ s with mob := { s.mob with ts := now } } : NodeState).neighborList
      ⟨{ s with mob := { s.mob with ts := now } }, false, false⟩
      hnodup (fun kv hkv => hkv) hdch hemp hne
    have hdeg : (unlRes now interval s).s.mob.degree = NodeDegree.ch := hpr.1
    have hcid : (unlRes now interval s).s.mob.clusterId = s.mob.imsi := hpr.2.1
    have hb : (unlRes now interval s).beacon = true := hpr.2.2
    have hm := updateNeighborList_fst_mob now interval s
      (by rw [hdeg]; exact fun hc => NodeDegree.noConfusion hc)
    refine ⟨?_, ?_, ?_⟩
    · rw [hm]
      exact hdeg
    · rw [hm]
      exact hcid
    · rw [updateNeighborList_snd]
      exact hb

/-- C8 witness: a CM node at time 1 with interval 3/10 whose only neighbor
is its stale own CH satisfies the hypotheses; the aged NeighborList is
uniformly fresh, the CH loss sends the node back to CLUSTER_INITIALIZATION,
and the emptied list leaves it either standalone or promoted CH. -/
theorem updateNeighborList_spec_witness :
    (∀ kv ∈ (updateNeighborList 1 (3 / 10) c8State).1.neighborList,
        1 - kv.2.ts ≤ 2 * (3 / 10)) ∧
    ((updateNeighborList 1 (3 / 10) c8State).1.status = NodeStatus.clusterStart ∧
      ((updateNeighborList 1 (3 / 10) c8State).1.mob.degree = NodeDegree.standalone ∨
        ((updateNeighborList 1 (3 / 10) c8State).1.neighborList = [] ∧
          (updateNeighborList 1 (3 / 10) c8State).1.mob.degree = NodeDegree.ch))) :=
  ⟨(updateNeighborList_spec 1 (3 / 10) c8State (by simp [c8State])
      (by intro kv hkv; simp [c8State, baseState] at hkv)).1,
   (updateNeighborList_spec 1 (3 / 10) c8State (by simp [c8State])
      (by intro kv hkv; simp [c8State, baseState] at hkv)).2.2.2.1
     ⟨(2, c8Entry), by simp [c8State], by norm_num [c8Entry, baseInfo],
       by simp [c8Entry, c8State]⟩⟩

end DevCoop
